import Mathlib

/-
  Verification of the class/composite-type semantic analyzer of the tart
  compiler (trunk/compiler/lib/Sema/ClassAnalyzer.cpp), against its
  natural-language specification.

  The development is a shallow embedding: the relevant source functions are
  translated into executable Lean definitions, and the specified properties
  are settled as theorems about those definitions.  External collaborators
  (the type resolver, the function analyzer, the canOverride predicate, the
  diagnostics sink's formatting) are abstracted as oracle parameters or
  skipped with a comment; everything that the claims depend on is embedded
  from the source.  A few helpers whose definitions live outside the provided
  sources (the pass registry of CompositeType, ancestorClasses,
  findBaseImplementationOf, instanceFieldCountRecursive) are modelled from
  the specification, as marked in their doc comments.
-/

set_option maxRecDepth 4000

/-! ## Shared basic enumerations -/

/-- Type::TypeClass, restricted to the constructors the analyzer inspects
(classes, structs, interfaces, protocols, native arrays, anything else). -/
inductive TypeClass where
  | classTC | structTC | interfaceTC | protocolTC | narrayTC | otherTC
deriving DecidableEq, Repr

/-- StorageClass, restricted to what ClassAnalyzer inspects. -/
inductive SClass where
  | instSC | staticSC | otherSC
deriving DecidableEq, Repr

/-- Visibility of a definition. -/
inductive Vis where
  | publicVis | privateVis | protectedVis
deriving DecidableEq, Repr

/-! ## Pass registry and pass-set machinery (ClassAnalyzer::analyze / runPasses)

The pass enumeration of CompositeType, the task pass sets at the top of
ClassAnalyzer.cpp, and the skeleton of runPasses / analyze.  The body of each
pass (createMembersFromAST, resolveAttributes, the per-pass analyzer work) is
abstracted by a success oracle `ok : Pass -> Bool`; what is embedded
faithfully is which passes each task runs, in which order, and how the
running/finished registry evolves, including which pass functions finish
their pass before reporting failure and which return leaving the pass
running (as the source does). -/

/-- The pass enumeration of CompositeType. -/
inductive Pass where
  | scopeCreation | baseTypes | attrib | namingConflict | converter
  | ctorPass | memberType | fieldPass | fieldTypePass | methodPass
  | overloading | completion
deriving DecidableEq, Repr, Fintype

/-- A set of passes, as a characteristic function (the source uses a bitset). -/
def PassSet := Pass → Bool

/-- All twelve passes. -/
def allPasses : List Pass :=
  [.scopeCreation, .baseTypes, .attrib, .namingConflict, .converter,
   .ctorPass, .memberType, .fieldPass, .fieldTypePass, .methodPass,
   .overloading, .completion]

/-- Build a pass set from a list. -/
def PassSet.ofList (l : List Pass) : PassSet := fun p => l.contains p

/-- PassSet::removeAll. -/
def PassSet.removeAll (s t : PassSet) : PassSet := fun p => s p && !t p

/-- PassSet::empty. -/
def PassSet.isEmpty (s : PassSet) : Bool := allPasses.all (fun p => !s p)

/-- PASS_SET_RESOLVE_TYPE. -/
def passSetResolveType : PassSet := PassSet.ofList [.scopeCreation, .baseTypes]

/-- PASS_SET_LOOKUP. -/
def passSetLookup : PassSet := PassSet.ofList [.scopeCreation, .baseTypes, .attrib]

/-- PASS_SET_CONSTRUCTION. -/
def passSetConstruction : PassSet :=
  PassSet.ofList [.scopeCreation, .baseTypes, .attrib, .namingConflict, .ctorPass]

/-- PASS_SET_CONVERSION. -/
def passSetConversion : PassSet :=
  PassSet.ofList [.scopeCreation, .baseTypes, .attrib, .namingConflict, .converter]

/-- PASS_SET_EVALUATION. -/
def passSetEvaluation : PassSet :=
  PassSet.ofList [.scopeCreation, .baseTypes, .attrib, .namingConflict, .converter,
    .memberType, .fieldPass, .methodPass, .overloading]

/-- PASS_SET_TYPEGEN (note: exactly the six passes listed in the source). -/
def passSetTypegen : PassSet :=
  PassSet.ofList [.scopeCreation, .baseTypes, .namingConflict, .attrib,
    .fieldPass, .fieldTypePass]

/-- PASS_SET_CODEGEN (note: FieldTypePass is absent in the source). -/
def passSetCodegen : PassSet :=
  PassSet.ofList [.scopeCreation, .baseTypes, .attrib, .namingConflict, .converter,
    .ctorPass, .memberType, .fieldPass, .methodPass, .overloading, .completion]

/-- The analysis tasks dispatched by ClassAnalyzer::analyze (otherTask stands
for the default branch of the switch, which returns true). -/
inductive AnalysisTask where
  | prepTypeComparison | prepMemberLookup | prepConstruction | prepConversion
  | prepEvaluation | prepTypeGeneration | prepCodeGeneration | otherTask
deriving DecidableEq, Repr

/-- The diagnostics the pass-skeleton model can emit. -/
inductive DiagA where
  | circularInheritance
deriving DecidableEq, Repr

/-- Modelled from the spec: the Pass Registry of CompositeType (its header is
not among the provided sources).  Two parallel bitsets over the pass
enumeration. -/
structure PassMgr where
  running : PassSet
  finished : PassSet

/-- The state of one composite type under analysis: its pass registry and the
diagnostics emitted so far. -/
structure AState where
  passes : PassMgr
  diags : List DiagA

/-- Traits of the target TypeDefn that runPasses branches on. -/
structure TargetFlags where
  isTemplate : Bool
  isTemplateMember : Bool
deriving DecidableEq, Repr

/-- A non-template, non-template-member target. -/
def plainTarget : TargetFlags := ⟨false, false⟩

/-- A fresh state: no pass running or finished, no diagnostics. -/
def freshAState : AState := ⟨⟨fun _ => false, fun _ => false⟩, []⟩

/-- Modelled from the spec: begin(pass) returns false if the pass is already
finished or already running (the CircularDependency signal of the running
case is a recoverable condition at the caller's choice and is not itself a
diagnostic record). -/
def AState.beginOk (st : AState) (p : Pass) : Bool :=
  !st.passes.finished p && !st.passes.running p

/-- Mark a pass running. -/
def AState.beginPass (st : AState) (p : Pass) : AState :=
  { st with passes := { st.passes with running := fun q => if q = p then true else st.passes.running q } }

/-- Modelled from the spec: finish(pass) clears running and adds to finished. -/
def AState.finishPass (st : AState) (p : Pass) : AState :=
  { st with passes :=
    { running := fun q => if q = p then false else st.passes.running q,
      finished := fun q => if q = p then true else st.passes.finished q } }

/-- Append a diagnostic. -/
def AState.addDiag (st : AState) (d : DiagA) : AState :=
  { st with diags := st.diags ++ [d] }

/-- The ScopeCreation step of runPasses: begin, createMembersFromAST
(abstracted by the oracle; on failure the source returns without finishing),
finish. -/
def scopeCreationStep (ok : Pass → Bool) (st : AState) : Bool × AState :=
  if st.beginOk .scopeCreation then
    let st := st.beginPass .scopeCreation
    if ok .scopeCreation then (true, st.finishPass .scopeCreation) else (false, st)
  else (true, st)

/-- The AttributePass step of runPasses: begin, resolveAttributes (abstracted;
failure returns without finishing), finish. -/
def attribStep (ok : Pass → Bool) (st : AState) : Bool × AState :=
  if st.beginOk .attrib then
    let st := st.beginPass .attrib
    if ok .attrib then (true, st.finishPass .attrib) else (false, st)
  else (true, st)

/-- ClassAnalyzer::checkNameConflicts: begin, scan the symbol table for
conflicting definition kinds (abstracted: the oracle is the success flag),
finish regardless, return the flag. -/
def checkNameConflicts (ok : Pass → Bool) (st : AState) : Bool × AState :=
  if st.beginOk .namingConflict then
    let st := st.beginPass .namingConflict
    (ok .namingConflict, st.finishPass .namingConflict)
  else (true, st)

/-- ClassAnalyzer::analyzeBaseClasses: an explicit isRunning check reports
circular inheritance and fails; otherwise begin, run the implementation
(abstracted by the oracle; analyzeBaseClassesImpl itself is embedded
separately below), finish regardless, and return the implementation's
result. -/
def analyzeBaseClassesReg (ok : Pass → Bool) (st : AState) : Bool × AState :=
  if st.passes.running .baseTypes then
    (false, st.addDiag .circularInheritance)
  else if !st.beginOk .baseTypes then (true, st)
  else
    let st := st.beginPass .baseTypes
    let result := ok .baseTypes
    (result, st.finishPass .baseTypes)

/-- ClassAnalyzer::analyzeMemberTypes: begin, copy traits to member types (a
loop that cannot fail), finish. -/
def analyzeMemberTypesReg (st : AState) : Bool × AState :=
  if st.beginOk .memberType then
    (true, (st.beginPass .memberType).finishPass .memberType)
  else (true, st)

/-- ClassAnalyzer::analyzeFields at registry level: begin, assign field
indices (embedded in detail below; the body cannot fail), finish. -/
def analyzeFieldsReg (st : AState) : Bool × AState :=
  if st.beginOk .fieldPass then
    (true, (st.beginPass .fieldPass).finishPass .fieldPass)
  else (true, st)

/-- ClassAnalyzer::analyzeConverters: begin, collect coercers (cannot fail),
finish. -/
def analyzeConvertersReg (st : AState) : Bool × AState :=
  if st.beginOk .converter then
    (true, (st.beginPass .converter).finishPass .converter)
  else (true, st)

/-- ClassAnalyzer::analyzeConstructors at registry level: begin; if the
superclass constructor analysis fails the source returns false without
finishing; otherwise the work (embedded in detail below) completes and the
pass finishes. -/
def analyzeConstructorsReg (ok : Pass → Bool) (st : AState) : Bool × AState :=
  if st.beginOk .ctorPass then
    let st := st.beginPass .ctorPass
    if ok .ctorPass then (true, st.finishPass .ctorPass) else (false, st)
  else (true, st)

/-- ClassAnalyzer::analyzeMethods: begin, validate signatures (diagnostics
only, cannot fail), finish. -/
def analyzeMethodsReg (st : AState) : Bool × AState :=
  if st.beginOk .methodPass then
    (true, (st.beginPass .methodPass).finishPass .methodPass)
  else (true, st)

/-- ClassAnalyzer::analyzeOverloading at registry level: begin, build the
dispatch tables (embedded in detail below; always returns normally), finish. -/
def analyzeOverloadingReg (st : AState) : Bool × AState :=
  if st.beginOk .overloading then
    (true, (st.beginPass .overloading).finishPass .overloading)
  else (true, st)

/-- ClassAnalyzer::analyzeFieldTypes: begin with the tolerant flag (re-entry
while running is accepted and skips the body), analyze field types (cannot
fail), finish. -/
def analyzeFieldTypesReg (st : AState) : Bool × AState :=
  if st.beginOk .fieldTypePass then
    (true, (st.beginPass .fieldTypePass).finishPass .fieldTypePass)
  else (true, st)

/-- ClassAnalyzer::analyzeCompletely: begin with the tolerant flag, bring
super and members to code generation (cannot fail at this level), finish. -/
def analyzeCompletelyReg (st : AState) : Bool × AState :=
  if st.beginOk .completion then
    (true, (st.beginPass .completion).finishPass .completion)
  else (true, st)

/-- The if-and-return-false sequencing of the runPasses body: each pass in
the list is run (when it is among the passes still to run) in order, and the
first failure short-circuits, exactly as the chain of early returns in the
source. -/
def passChainRun (toRun : PassSet) :
    List (Pass × (AState → Bool × AState)) → AState → Bool × AState
  | [], st => (true, st)
  | (p, f) :: rest, st =>
    if toRun p then
      match f st with
      | (false, st') => (false, st')
      | (true, st') => passChainRun toRun rest st'
    else passChainRun toRun rest st

/-- ClassAnalyzer::runPasses: compute the passes still to run, short-circuit
when empty, handle template targets, then run the needed passes in the
source's order (ScopeCreation, Attribute, NamingConflict, BaseTypes,
MemberType, Field, Converter, Constructor, Method, Overloading, FieldType,
Completion), stopping at the first failure. -/
def runPasses (ok : Pass → Bool) (flags : TargetFlags) (passesToRun : PassSet)
    (st : AState) : Bool × AState :=
  let toRun := passesToRun.removeAll st.passes.finished
  if toRun.isEmpty then (true, st)
  else if flags.isTemplate then
    -- Template targets: analyzeTemplateSignature (external), then only the
    -- BaseTypes and ScopeCreation passes are considered.
    passChainRun toRun
      [(.baseTypes, analyzeBaseClassesReg ok),
       (.scopeCreation, scopeCreationStep ok)] st
  else if flags.isTemplateMember then (true, st)
  else
    passChainRun toRun
      [(.scopeCreation, scopeCreationStep ok),
       (.attrib, attribStep ok),
       (.namingConflict, checkNameConflicts ok),
       (.baseTypes, analyzeBaseClassesReg ok),
       (.memberType, analyzeMemberTypesReg),
       (.fieldPass, analyzeFieldsReg),
       (.converter, analyzeConvertersReg),
       (.ctorPass, analyzeConstructorsReg ok),
       (.methodPass, analyzeMethodsReg),
       (.overloading, analyzeOverloadingReg),
       (.fieldTypePass, analyzeFieldTypesReg),
       (.completion, analyzeCompletelyReg)] st

/-- ClassAnalyzer::analyze: dispatch a task to its pass set. -/
def analyzeTask (ok : Pass → Bool) (flags : TargetFlags) (task : AnalysisTask)
    (st : AState) : Bool × AState :=
  match task with
  | .prepTypeComparison => runPasses ok flags passSetResolveType st
  | .prepMemberLookup => runPasses ok flags passSetLookup st
  | .prepConstruction => runPasses ok flags passSetConstruction st
  | .prepConversion => runPasses ok flags passSetConversion st
  | .prepEvaluation => runPasses ok flags passSetEvaluation st
  | .prepTypeGeneration => runPasses ok flags passSetTypegen st
  | .prepCodeGeneration => runPasses ok flags passSetCodegen st
  | .otherTask => (true, st)

/-- A sequence of analyze calls on the same type. -/
def runTasks (ok : Pass → Bool) (flags : TargetFlags) (tasks : List AnalysisTask)
    (st : AState) : AState :=
  tasks.foldl (fun st τ => (analyzeTask ok flags τ st).2) st

/-- The pass set of each task (for stating properties). -/
def taskPassSet (task : AnalysisTask) : PassSet :=
  match task with
  | .prepTypeComparison => passSetResolveType
  | .prepMemberLookup => passSetLookup
  | .prepConstruction => passSetConstruction
  | .prepConversion => passSetConversion
  | .prepEvaluation => passSetEvaluation
  | .prepTypeGeneration => passSetTypegen
  | .prepCodeGeneration => passSetCodegen
  | .otherTask => fun _ => false

/-- The seven real tasks. -/
def allTasks : List AnalysisTask :=
  [.prepTypeComparison, .prepMemberLookup, .prepConstruction, .prepConversion,
   .prepEvaluation, .prepTypeGeneration, .prepCodeGeneration]

/-- The topological order of passes claimed by the specification
(section 4.1). -/
def specPassOrder : List Pass :=
  [.scopeCreation, .baseTypes, .attrib, .namingConflict, .converter,
   .ctorPass, .memberType, .fieldPass, .fieldTypePass, .methodPass,
   .overloading, .completion]

/-- Position of a pass in the specification's claimed topological order. -/
def specIdx (p : Pass) : Nat := (specPassOrder.indexOf p)

/-- The pass-order invariant exactly as the specification claims it: a
finished pass implies every earlier pass (in the claimed topological order)
is finished. -/
def specPassOrderInv (st : AState) : Prop :=
  ∀ p q : Pass, specIdx q < specIdx p →
    st.passes.finished p = true → st.passes.finished q = true

instance (st : AState) : Decidable (specPassOrderInv st) := by
  unfold specPassOrderInv; infer_instance

/-- q is in every task pass set that contains p (the order actually
guaranteed by the task sets of the source). -/
def taskCore (p q : Pass) : Bool :=
  allTasks.all (fun τ => !taskPassSet τ p || taskPassSet τ q)

/-- No pass is currently running (the steady state between top-level analyze
calls in the single-type model). -/
def NoRunning (st : AState) : Prop := ∀ p, st.passes.running p = false

/-- The behaviour every pass function of the chain has when its body
succeeds: it reports success, finishes exactly its own pass, leaves nothing
running, and emits no diagnostic. -/
def FnSpec (t : Pass) (f : AState → Bool × AState) : Prop :=
  ∀ st : AState, NoRunning st →
    (f st).1 = true ∧
    (∀ p, (f st).2.passes.finished p = if p = t then true else st.passes.finished p) ∧
    NoRunning (f st).2 ∧ (f st).2.diags = st.diags

/-- A state in which the BaseTypes pass is currently running (the state the
second type of a circular inheritance chain observes when its base chain
re-enters it). -/
def baseTypesRunningState : AState :=
  ⟨⟨fun p => p == .baseTypes, fun _ => false⟩, []⟩

/-! ## Field analyzer (ClassAnalyzer::analyzeFields)

The body of the Field pass: reserve slot 0 for the superclass when a super
exists, then walk the declared members in order, assigning per-type and
cumulative indices to instance-storage fields and collecting static fields.
Recursive preparation of field types (analyzeValueDefn) and trait copying
are external and do not affect the layout. -/

/-- Defn::DefnType, restricted to what the claims need. -/
inductive DefnKind where
  | varK | letK | funcK | namespaceK | otherK
deriving DecidableEq, Repr

/-- A declared member as the Field pass sees it: its identity, definition
kind, storage class, and whether its initializer exists and is a
compile-time constant. -/
structure FMember where
  fid : Nat
  kind : DefnKind
  storage : SClass
  initIsConst : Bool
deriving DecidableEq, Repr

/-- Diagnostics of the Field pass. -/
inductive DiagC where
  | dataMemberInInterface (fid : Nat)
deriving DecidableEq, Repr

/-- The evolving state of analyzeFields: the instance field list (slot
contents; none is the reserved NULL superclass slot), static fields, the
(field, memberIndex, memberIndexRecursive) assignments made, the two
counters, and diagnostics. -/
structure FieldsAcc where
  instanceFields : List (Option Nat)
  staticFields : List Nat
  assigns : List (Nat × Nat × Nat)
  count : Nat
  countRec : Nat
  diags : List DiagC
deriving DecidableEq, Repr

/-- One iteration of the member loop of ClassAnalyzer::analyzeFields: the
Var and Let cases share a body (a Let with a constant initializer requires
no storage; interfaces may not declare data members; instance-storage fields
get the next per-type and cumulative indices; static fields are collected);
the Namespace case and all other member kinds change nothing. -/
def fieldStep (tcls : TypeClass) (m : FMember) (acc : FieldsAcc) : FieldsAcc :=
  if m.kind == .varK || m.kind == .letK then
    -- A Let whose initializer is a compile-time constant requires no storage.
    if !(m.kind == .letK && m.initIsConst) then
      let acc :=
        if tcls == .interfaceTC then
          { acc with diags := acc.diags ++ [.dataMemberInInterface m.fid] }
        else acc
      if m.storage == .instSC then
        { acc with
          assigns := acc.assigns ++ [(m.fid, acc.count, acc.countRec)],
          instanceFields := acc.instanceFields ++ [some m.fid],
          count := acc.count + 1,
          countRec := acc.countRec + 1 }
      else if m.storage == .staticSC then
        { acc with staticFields := acc.staticFields ++ [m.fid] }
      else acc
    else acc
  else acc

/-- The member loop of ClassAnalyzer::analyzeFields. -/
def analyzeFieldsGo (tcls : TypeClass) : List FMember → FieldsAcc → FieldsAcc
  | [], acc => acc
  | m :: rest, acc => analyzeFieldsGo tcls rest (fieldStep tcls m acc)

/-- ClassAnalyzer::analyzeFields: when a super exists, reserve one NULL slot
for it, start the per-type counter at 1, and start the cumulative counter at
the super's cumulative field count; then process the members. -/
def analyzeFields (tcls : TypeClass) (hasSuper : Bool) (superRecCount : Nat)
    (members : List FMember) : FieldsAcc :=
  let acc0 : FieldsAcc :=
    if hasSuper then ⟨[none], [], [], 1, superRecCount, []⟩
    else ⟨[], [], [], 0, 0, []⟩
  analyzeFieldsGo tcls members acc0

/-! ## Base-class analysis (ClassAnalyzer::analyzeBaseClassesImpl)

The base loop: each AST base expression has already been resolved by the
external TypeAnalyzer, so the input is the list of resolution outcomes in
declaration order.  The recursive preparation of each base
(Task_PrepMemberLookup) is abstracted by a success oracle.  The kind
dispatch, primary-base selection, diagnostics, and the final ordering of the
bases list are embedded from the source. -/

/-- The outcome of resolving one AST base expression: an error result, a type
that is not a composite with a TypeDefn, or a composite base with its
identity, kind, singularity and finality. -/
structure BaseDesc where
  bid : Nat
  btc : TypeClass
  bSingular : Bool
  bFinal : Bool
deriving DecidableEq, Repr

/-- Resolution outcome of a base expression. -/
inductive BaseRes where
  | errorRes
  | nonComposite
  | okRes (b : BaseDesc)
deriving DecidableEq, Repr

/-- Diagnostics of the BaseTypes pass implementation. -/
inductive DiagE where
  | interfaceFinal | protocolFinal
  | cannotInherit
  | baseIsTemplate
  | finalBase
  | singleSupertypeClass
  | classInheritKind
  | structInheritKind
  | singleSupertypeStruct
  | interfaceInheritKind
  | illegalState
deriving DecidableEq, Repr

/-- The result of analyzeBaseClassesImpl: success flag, the selected primary
base (type->super()), the bases list, diagnostics. -/
structure BCResult where
  ok : Bool
  superT : Option Nat
  basesList : List Nat
  diags : List DiagE
deriving DecidableEq, Repr

/-- One iteration of the base loop of analyzeBaseClassesImpl.  The first
component reports whether the loop continues (the source's early returns on
resolution errors, non-composite bases, non-singular bases of non-template
targets, and failed recursive base analysis stop it); the rest is the updated
(primary, bases, diagnostics) state.  The kind dispatch selects the primary
base; a non-primary base is appended to the bases list. -/
def abcStep (dtype : TypeClass) (isFromTemplate : Bool) (recOk : Nat → Bool)
    (r : BaseRes) (primary : Option BaseDesc) (bases : List Nat)
    (ds : List DiagE) : Bool × Option BaseDesc × List Nat × List DiagE :=
  match r with
  | .errorRes => (false, primary, bases, ds)
  | .nonComposite => (false, primary, bases, ds ++ [.cannotInherit])
  | .okRes b =>
    if !b.bSingular && !isFromTemplate then
      (false, primary, bases, ds ++ [.baseIsTemplate])
    else
      let ds := if b.bFinal then ds ++ [.finalBase] else ds
      -- Recursively analyze the bases of the base (Task_PrepMemberLookup).
      if !(recOk b.bid) then (false, primary, bases, ds)
      else
        let pd : Bool × List DiagE :=
          match dtype with
          | .classTC =>
            if b.btc == .classTC then
              if primary.isNone then (true, ds)
              else (false, ds ++ [.singleSupertypeClass])
            else if b.btc != .interfaceTC then (false, ds ++ [.classInheritKind])
            else (false, ds)
          | .structTC =>
            if b.btc != .structTC && b.btc != .protocolTC then
              (false, ds ++ [.structInheritKind])
            else if primary.isNone then (true, ds)
            else (false, ds ++ [.singleSupertypeStruct])
          | .interfaceTC =>
            if b.btc != .interfaceTC && b.btc != .protocolTC then
              (false, ds ++ [.interfaceInheritKind])
            else if primary.isNone then (true, ds)
            else (false, ds)
          | _ => (false, ds ++ [.illegalState])
        -- addBaseXRefs: external module bookkeeping, skipped.
        if pd.1 then (true, some b, bases, pd.2)
        else (true, primary, bases ++ [b.bid], pd.2)

/-- The base loop of analyzeBaseClassesImpl. -/
def abcLoop (dtype : TypeClass) (isFromTemplate : Bool) (recOk : Nat → Bool) :
    List BaseRes → Option BaseDesc → List Nat → List DiagE →
    Bool × Option BaseDesc × List Nat × List DiagE
  | [], primary, bases, ds => (true, primary, bases, ds)
  | r :: rest, primary, bases, ds =>
    match abcStep dtype isFromTemplate recOk r primary bases ds with
    | (false, primary, bases, ds) => (false, primary, bases, ds)
    | (true, primary, bases, ds) => abcLoop dtype isFromTemplate recOk rest primary bases ds

/-- ClassAnalyzer::analyzeBaseClassesImpl: no AST means the compiler set up
the base list itself (trivial success); validate finality of interfaces and
protocols; run the base loop; default the primary base of a class to Object;
set super; move the primary base to the front of the bases list.
(propagateSubtypeAttributes and the module symbol exports are external.) -/
def analyzeBaseClassesImpl (dtype : TypeClass) (hasAST : Bool)
    (targetFinal : Bool) (isFromTemplate : Bool) (recOk : Nat → Bool)
    (resolvedBases : List BaseRes) (targetIsObject : Bool)
    (objectDesc : BaseDesc) : BCResult :=
  if !hasAST then ⟨true, none, [], []⟩
  else
    let ds : List DiagE :=
      if targetFinal then
        if dtype == .interfaceTC then [.interfaceFinal]
        else if dtype == .protocolTC then [.protocolFinal]
        else []
      else []
    match abcLoop dtype isFromTemplate recOk resolvedBases none [] ds with
    | (false, _, bases, ds) => ⟨false, none, bases, ds⟩
    | (true, primary, bases, ds) =>
      let primary :=
        if dtype == .classTC && primary.isNone && !targetIsObject then
          some objectDesc
        else primary
      match primary with
      | some p => ⟨true, some p.bid, p.bid :: bases, ds⟩
      | none => ⟨true, none, bases, ds⟩

/-- Extract the successfully resolved composite base descriptors. -/
def okDesc : BaseRes → Option BaseDesc
  | .okRes b => some b
  | _ => none

/-- The base kinds the source allows to become the primary base of a struct
or interface target (the first such base wins). -/
def allowedPrimary (dtype : TypeClass) (k : TypeClass) : Bool :=
  match dtype with
  | .structTC => k == .structTC || k == .protocolTC
  | .interfaceTC => k == .interfaceTC || k == .protocolTC
  | _ => false

/-! ## Overload resolution (ClassAnalyzer::analyzeOverloading and its five
substeps)

Functions are identified by ids into a mutable store (the source mutates
FunctionDefn objects through pointers: setDispatchIndex and
overriddenMethods().insert; both are modelled as store updates).  The
canOverride predicate of the function layer and hasSameSignature are opaque
oracles.  CompositeType::ancestorClasses and findBaseImplementationOf are
not among the provided sources and are modelled from the spec, with fuel for
the traversal of the base graph. -/

/-- Identity of a FunctionDefn. -/
abbrev FnId := Nat

/-- Identity of a CompositeType. -/
abbrev TypeId := Nat

/-- Identity of a PropertyDefn. -/
abbrev PropId := Nat

/-- The attributes of a FunctionDefn that the Overloading pass reads, plus
its two mutable fields (dispatchIndex and the overriddenMethods set).
parentProp is the name of the owning property when the function is a
property or indexer accessor. -/
structure FunctionDefn where
  fname : String
  parentProp : Option String
  hasBody : Bool
  isExtern : Bool
  isIntrinsic : Bool
  isUndefined : Bool
  isFinalFn : Bool
  isCtor : Bool
  isOverrideDecl : Bool
  isSingularFn : Bool
  storage : SClass
  arity : Nat
  dispatchIndex : Int
  overridden : List FnId
deriving DecidableEq, Repr

/-- The function store (pointer dereference). -/
def Store := FnId → FunctionDefn

/-- Update one function in the store. -/
def updateFn (s : Store) (i : FnId) (v : FunctionDefn) : Store :=
  fun j => if j = i then v else s j

/-- FunctionDefn::setDispatchIndex. -/
def setDispatch (s : Store) (f : FnId) (i : Int) : Store :=
  updateFn s f { s f with dispatchIndex := i }

/-- FunctionDefn::overriddenMethods().insert. -/
def insertOverridden (s : Store) (f : FnId) (m : FnId) : Store :=
  if m ∈ (s f).overridden then s
  else updateFn s f { s f with overridden := m :: (s f).overridden }

/-- A PropertyDefn (or IndexerDefn) as the Overloading pass sees it. -/
structure PropertyDefn where
  propName : String
  pstorage : SClass
  pSingular : Bool
  getter : Option FnId
  setter : Option FnId
deriving DecidableEq, Repr

/-- The property store. -/
def PropStore := PropId → PropertyDefn

/-- A member reference in a symbol-table entry or in the scope's member
chain. -/
inductive MemberRef where
  | fnM (f : FnId)
  | propM (p : PropId)
  | otherM
deriving DecidableEq, Repr

/-- One symbol-table entry: a name and its overload set in insertion order. -/
structure Entry where
  ename : String
  defns : List MemberRef
deriving DecidableEq, Repr

/-- Diagnostics of the Overloading pass. -/
inductive DiagB where
  | sigConflict (a b : FnId)
  | overrideKeyword (nm m : FnId)
  | hiddenMember (m : FnId)
  | invalidAccessorOverride (m : FnId)
  | undefNoOverride (f : FnId)
  | concreteLacksMethods (offenders : List FnId)
  | unimplementedInterface (itype : TypeId) (offenders : List FnId)
deriving DecidableEq, Repr

/-- A CompositeType as the Overloading pass sees it. -/
structure CompTypeB where
  typeClass : TypeClass
  superB : Option TypeId
  bases : List TypeId
  instanceMethods : List FnId
  interfaces : List (TypeId × List FnId)
deriving DecidableEq, Repr

/-- The world of composite types. -/
def TypeWorld := TypeId → CompTypeB

/-- ClassAnalyzer::findOverride: the first of the new methods that
canOverride the existing slot occupant. -/
def findOverride (canOv : FunctionDefn → FunctionDefn → Bool) (s : Store)
    (m : FnId) (overrides : List FnId) : Option FnId :=
  overrides.find? (fun o => canOv (s o) (s m))

/-- The state a table-rewriting pass threads: the method table being
rewritten, the function store, and diagnostics. -/
structure OMState where
  table : List FnId
  store : Store
  diags : List DiagB

/-- One slot of ClassAnalyzer::overrideMethods: if the occupant's name
matches, replace the slot with an override-compatible new method (recording
the replaced method in its overriddenMethods, assigning it the slot's
dispatch index when canHide and it has none, and diagnosing a missing
'override' keyword when the replaced method had a body); with no compatible
new method, warn about hiding when canHide. -/
def overrideMethodsStep (canOv : FunctionDefn → FunctionDefn → Bool)
    (canHide : Bool) (name : String) (overrides : List FnId)
    (st : OMState) (i : Nat) : OMState :=
  match st.table[i]? with
  | none => st
  | some m =>
    if (st.store m).fname == name then
      match findOverride canOv st.store m overrides with
      | some nm =>
        let table := st.table.set i nm
        let store :=
          if canHide && decide ((st.store nm).dispatchIndex < 0) then
            setDispatch st.store nm (Int.ofNat i)
          else st.store
        let diags :=
          if (store m).hasBody && !(store nm).isOverrideDecl then
            st.diags ++ [.overrideKeyword nm m]
          else st.diags
        let store := insertOverridden store nm m
        ⟨table, store, diags⟩
      | none =>
        if canHide then { st with diags := st.diags ++ [.hiddenMember m] }
        else st
    else st

/-- ClassAnalyzer::overrideMethods: iterate the slots of the table (the size
is fixed before the loop and replacement preserves it). -/
def overrideMethods (canOv : FunctionDefn → FunctionDefn → Bool)
    (canHide : Bool) (overrides : List FnId) (st : OMState) : OMState :=
  let name := (st.store (overrides.headD 0)).fname
  (List.range st.table.length).foldl
    (overrideMethodsStep canOv canHide name overrides) st

/-- One slot of ClassAnalyzer::overridePropertyAccessors: the occupant must
be an accessor of a property with the right name; an incompatible accessor
set warns unconditionally. -/
def overridePropAccStep (canOv : FunctionDefn → FunctionDefn → Bool)
    (canHide : Bool) (name : String) (propName : String)
    (accessors : List FnId) (st : OMState) (i : Nat) : OMState :=
  match st.table[i]? with
  | none => st
  | some m =>
    match (st.store m).parentProp with
    | none => st
    | some pname =>
      if (st.store m).fname == name && pname == propName then
        match findOverride canOv st.store m accessors with
        | some na =>
          let table := st.table.set i na
          let store :=
            if canHide && decide ((st.store na).dispatchIndex < 0) then
              setDispatch st.store na (Int.ofNat i)
            else st.store
          let store := insertOverridden store na m
          ⟨table, store, st.diags⟩
        | none =>
          { st with diags := st.diags ++ [.invalidAccessorOverride m] }
      else st

/-- ClassAnalyzer::overridePropertyAccessors. -/
def overridePropertyAccessors (canOv : FunctionDefn → FunctionDefn → Bool)
    (canHide : Bool) (propName : String) (accessors : List FnId)
    (st : OMState) : OMState :=
  let name := (st.store (accessors.headD 0)).fname
  (List.range st.table.length).foldl
    (overridePropAccStep canOv canHide name propName accessors) st

/-- ClassAnalyzer::ensureUniqueSignatures: a conflict diagnostic for every
pair with the same signature. -/
def ensureUniqueSignatures (sameSig : FunctionDefn → FunctionDefn → Bool)
    (s : Store) : List FnId → List DiagB
  | [] => []
  | m :: rest =>
    (rest.filterMap (fun j =>
      if sameSig (s m) (s j) then some (DiagB.sigConflict m j) else none)) ++
    ensureUniqueSignatures sameSig s rest

/-- The method/getter/setter groups collected from one symbol-table entry by
the first loop of ClassAnalyzer::overrideMembers. -/
structure EntryGroups where
  methods : List FnId
  getters : List FnId
  setters : List FnId
  lastProp : Option PropId

/-- The collection loop of ClassAnalyzer::overrideMembers: singular instance
non-constructor functions become the methods group (module symbol export is
external); instance singular properties contribute their getters and setters
(analyzeValueDefn on them is external); the prop variable tracks the last
property seen. -/
def collectEntry (s : Store) (ps : PropStore) (defns : List MemberRef) :
    EntryGroups :=
  defns.foldl (fun acc d =>
    match d with
    | .fnM f =>
      if (s f).isSingularFn then
        if (s f).storage == .instSC && !(s f).isCtor then
          { acc with methods := acc.methods ++ [f] }
        else acc
      else acc
    | .propM p =>
      let pd := ps p
      let acc := { acc with lastProp := some p }
      if pd.pstorage == .instSC && pd.pSingular then
        { acc with
          getters := acc.getters ++ pd.getter.toList,
          setters := acc.setters ++ pd.setter.toList }
      else acc
    | .otherM => acc) ⟨[], [], [], none⟩

/-- The state of the Overloading pass on the target type: its instance
method table, its interface tables, the function store, and diagnostics. -/
structure OvState where
  table : List FnId
  itables : List (TypeId × List FnId)
  store : Store
  diags : List DiagB

/-- Run overrideMethods on the instance method table. -/
def omOnTable (canOv : FunctionDefn → FunctionDefn → Bool) (canHide : Bool)
    (overrides : List FnId) (st : OvState) : OvState :=
  let r := overrideMethods canOv canHide overrides ⟨st.table, st.store, st.diags⟩
  { st with table := r.table, store := r.store, diags := r.diags }

/-- Run overrideMethods (canHide false) on each interface table in order. -/
def omOnItables (canOv : FunctionDefn → FunctionDefn → Bool)
    (overrides : List FnId) (st : OvState) : OvState :=
  let r := st.itables.foldl
    (fun (acc : List (TypeId × List FnId) × Store × List DiagB) it =>
      let r := overrideMethods canOv false overrides ⟨it.2, acc.2.1, acc.2.2⟩
      (acc.1 ++ [(it.1, r.table)], r.store, r.diags))
    ([], st.store, st.diags)
  { st with itables := r.1, store := r.2.1, diags := r.2.2 }

/-- Run overridePropertyAccessors on the instance method table. -/
def opaOnTable (canOv : FunctionDefn → FunctionDefn → Bool) (canHide : Bool)
    (propName : String) (accessors : List FnId) (st : OvState) : OvState :=
  let r := overridePropertyAccessors canOv canHide propName accessors
    ⟨st.table, st.store, st.diags⟩
  { st with table := r.table, store := r.store, diags := r.diags }

/-- Run overridePropertyAccessors (canHide false) on each interface table. -/
def opaOnItables (canOv : FunctionDefn → FunctionDefn → Bool)
    (propName : String) (accessors : List FnId) (st : OvState) : OvState :=
  let r := st.itables.foldl
    (fun (acc : List (TypeId × List FnId) × Store × List DiagB) it =>
      let r := overridePropertyAccessors canOv false propName accessors
        ⟨it.2, acc.2.1, acc.2.2⟩
      (acc.1 ++ [(it.1, r.table)], r.store, r.diags))
    ([], st.store, st.diags)
  { st with itables := r.1, store := r.2.1, diags := r.2.2 }

/-- Processing of one symbol-table entry by ClassAnalyzer::overrideMembers:
the methods group updates the instance method table (canHide) and every
itable (no canHide); the getter and setter groups do the same through the
property-accessor variant, keyed additionally by the (last) property's
name. -/
def processEntry (canOv sameSig : FunctionDefn → FunctionDefn → Bool)
    (ps : PropStore) (st : OvState) (e : Entry) : OvState :=
  let g := collectEntry st.store ps e.defns
  let st :=
    if g.methods.isEmpty then st
    else
      let st := { st with
        diags := st.diags ++ ensureUniqueSignatures sameSig st.store g.methods }
      let st := omOnTable canOv true g.methods st
      omOnItables canOv g.methods st
  let st :=
    if g.getters.isEmpty then st
    else
      match g.lastProp with
      | none => st
      | some p =>
        let st := { st with
          diags := st.diags ++ ensureUniqueSignatures sameSig st.store g.getters }
        let st := opaOnTable canOv true ((ps p).propName) g.getters st
        opaOnItables canOv ((ps p).propName) g.getters st
  let st :=
    if g.setters.isEmpty then st
    else
      match g.lastProp with
      | none => st
      | some p =>
        let st := { st with
          diags := st.diags ++ ensureUniqueSignatures sameSig st.store g.setters }
        let st := opaOnTable canOv true ((ps p).propName) g.setters st
        opaOnItables canOv ((ps p).propName) g.setters st
  st

/-- ClassAnalyzer::overrideMembers: iterate the symbol table. -/
def overrideMembers (canOv sameSig : FunctionDefn → FunctionDefn → Bool)
    (ps : PropStore) (entries : List Entry) (st : OvState) : OvState :=
  entries.foldl (processEntry canOv sameSig ps) st

/-- The super type whose methods seed the instance method table: the primary
base, or — for an interface or struct without one — the first entry of the
bases list. -/
def copyBaseSource (w : TypeWorld) (A : TypeId) : Option TypeId :=
  match (w A).superB with
  | some b => some b
  | none =>
    let tcls := (w A).typeClass
    if (tcls == .interfaceTC || tcls == .structTC) && !(w A).bases.isEmpty then
      (w A).bases.head?
    else none

/-- ClassAnalyzer::copyBaseClassMethods: append the super's instance methods
to the (so far empty on a first run) instance method table. -/
def copyBaseClassMethods (w : TypeWorld) (A : TypeId) (st : OvState) : OvState :=
  match copyBaseSource w A with
  | some b => { st with table := st.table ++ (w b).instanceMethods }
  | none => st

/-- Modelled from the spec: CompositeType::ancestorClasses (its definition
is not among the provided sources) — the transitive set of ancestor
composite types, gathered breadth-first over the bases lists with fuel. -/
def ancestorsFrom (w : TypeWorld) : Nat → List TypeId → List TypeId → List TypeId
  | 0, _, acc => acc
  | _ + 1, [], acc => acc
  | fuel + 1, t :: rest, acc =>
    let bs := ((w t).bases).filter (fun b => !(acc.contains b))
    ancestorsFrom w fuel (rest ++ bs) (acc ++ bs)

/-- The interfaces needing their own itable: the ancestors minus every type
that is the first parent of the target or of another ancestor (those share
the first parent's itable). -/
def interfaceTypesOf (w : TypeWorld) (fuel : Nat) (A : TypeId) : List TypeId :=
  let ancestors := ancestorsFrom w fuel [A] []
  let withSelf := A :: ancestors
  let firstParents := withSelf.filterMap (fun b => ((w b).bases).head?)
  ancestors.filter (fun t => !(firstParents.contains t))

/-- Modelled from the spec: the search behind
CompositeType::findBaseImplementationOf — an itable for the interface that
already exists somewhere in the base chain. -/
def findBaseImplAux (w : TypeWorld) (itype : TypeId) :
    Nat → List TypeId → Option (List FnId)
  | 0, _ => none
  | _ + 1, [] => none
  | fuel + 1, b :: rest =>
    match ((w b).interfaces).find? (fun e => e.1 == itype) with
    | some e => some e.2
    | none =>
      match findBaseImplAux w itype fuel ((w b).bases) with
      | some tbl => some tbl
      | none => findBaseImplAux w itype fuel rest

/-- Modelled from the spec: CompositeType::findBaseImplementationOf. -/
def findBaseImplementationOf (w : TypeWorld) (fuel : Nat) (A : TypeId)
    (itype : TypeId) : Option (List FnId) :=
  findBaseImplAux w itype fuel ((w A).bases)

/-- ClassAnalyzer::createInterfaceTables: one itable per remaining ancestor
interface, seeded from a base's existing itable for it when one exists and
from the interface's own instance methods otherwise. -/
def createInterfaceTables (w : TypeWorld) (fuel : Nat) (A : TypeId)
    (st : OvState) : OvState :=
  (interfaceTypesOf w fuel A).foldl (fun st itype =>
    let parentImpl := findBaseImplementationOf w fuel A itype
    let methods :=
      match parentImpl with
      | some tbl => tbl
      | none => (w itype).instanceMethods
    { st with itables := st.itables ++ [(itype, methods)] }) st

/-- ClassAnalyzer::addNewMethods: singular instance members not already
placed are appended — functions that are neither constructors nor final and
have no dispatch index, and likewise property and indexer accessors; an
undefined function that overrides nothing is diagnosed (unless it is a
parameterless constructor). -/
def addNewMethods (ps : PropStore) (memberList : List MemberRef)
    (st : OvState) : OvState :=
  memberList.foldl (fun st de =>
    match de with
    | .fnM f =>
      let fd := st.store f
      if fd.storage == .instSC && fd.isSingularFn then
        let st :=
          if fd.isUndefined && fd.overridden.isEmpty then
            if !fd.isCtor || fd.arity != 0 then
              { st with diags := st.diags ++ [.undefNoOverride f] }
            else st
          else st
        if !fd.isCtor && !fd.isFinalFn && decide (fd.dispatchIndex < 0) then
          { st with
            store := setDispatch st.store f (Int.ofNat st.table.length),
            table := st.table ++ [f] }
        else st
      else st
    | .propM p =>
      let pd := ps p
      if pd.pstorage == .instSC && pd.pSingular then
        let st :=
          match pd.getter with
          | some g =>
            if !(st.store g).isFinalFn && decide ((st.store g).dispatchIndex < 0) then
              { st with
                store := setDispatch st.store g (Int.ofNat st.table.length),
                table := st.table ++ [g] }
            else st
          | none => st
        match pd.setter with
        | some t =>
          if !(st.store t).isFinalFn && decide ((st.store t).dispatchIndex < 0) then
            { st with
              store := setDispatch st.store t (Int.ofNat st.table.length),
              table := st.table ++ [t] }
          else st
        | none => st
      else st
    | .otherM => st) st

/-- A method with no body and no extern/intrinsic/undef marker. -/
def isOffender (s : Store) (f : FnId) : Bool :=
  !(s f).hasBody && !(s f).isExtern && !(s f).isIntrinsic && !(s f).isUndefined

/-- The itable half of ClassAnalyzer::checkForRequiredMethods: the loop
returns at the first itable with unimplemented entries, so at most one is
diagnosed. -/
def itabRequiredLoop (s : Store) : List (TypeId × List FnId) → List DiagB
  | [] => []
  | it :: rest =>
    let unimpMethods := it.2.filter (isOffender s)
    if !unimpMethods.isEmpty then [.unimplementedInterface it.1 unimpMethods]
    else itabRequiredLoop s rest

/-- ClassAnalyzer::checkForRequiredMethods: nothing for abstract targets;
with any abstract method left in the instance method table, diagnose (for
structs and concrete classes) and return without looking at the itables;
otherwise diagnose the first incomplete itable. -/
def checkForRequiredMethods (targetAbstract : Bool) (tcls : TypeClass)
    (st : OvState) : OvState :=
  if targetAbstract then st
  else
    let abstractMethods := st.table.filter (isOffender st.store)
    if !abstractMethods.isEmpty then
      if tcls == .structTC || (tcls == .classTC && !targetAbstract) then
        { st with diags := st.diags ++ [.concreteLacksMethods abstractMethods] }
      else st
    else { st with diags := st.diags ++ itabRequiredLoop st.store st.itables }

/-- ClassAnalyzer::analyzeOverloading, after the overload analysis of the
bases (external recursion): the five substeps in order. -/
def analyzeOverloadingSteps (canOv sameSig : FunctionDefn → FunctionDefn → Bool)
    (w : TypeWorld) (ps : PropStore) (fuel : Nat) (A : TypeId)
    (entries : List Entry) (memberList : List MemberRef)
    (targetAbstract : Bool) (s0 : Store) : OvState :=
  let st : OvState := ⟨(w A).instanceMethods, (w A).interfaces, s0, []⟩
  let st := copyBaseClassMethods w A st
  let st := createInterfaceTables w fuel A st
  let st := overrideMembers canOv sameSig ps entries st
  let st := addNewMethods ps memberList st
  checkForRequiredMethods targetAbstract ((w A).typeClass) st

/-- The chains of recorded overrides, bounded by fuel: reaches s n f g holds
when g is in f's overriddenMethods set or reachable from it in at most n
steps. -/
def reaches (s : Store) : Nat → FnId → FnId → Bool
  | 0, _, _ => false
  | n + 1, f, g =>
    (s f).overridden.contains g ||
    (s f).overridden.any (fun h => reaches s n h g)

/-- f overrides g (directly or through a chain of recorded overrides). -/
def Overrides (s : Store) (f g : FnId) : Prop :=
  ∃ n, reaches s n f g = true

/-- All fields of a FunctionDefn except the two mutable ones agree. -/
def sameSkeleton (a b : FunctionDefn) : Prop :=
  a.fname = b.fname ∧ a.parentProp = b.parentProp ∧ a.hasBody = b.hasBody ∧
  a.isExtern = b.isExtern ∧ a.isIntrinsic = b.isIntrinsic ∧
  a.isUndefined = b.isUndefined ∧ a.isFinalFn = b.isFinalFn ∧
  a.isCtor = b.isCtor ∧ a.isOverrideDecl = b.isOverrideDecl ∧
  a.isSingularFn = b.isSingularFn ∧ a.storage = b.storage ∧ a.arity = b.arity

/-- Store evolution during the Overloading pass: every function keeps its
skeleton and its overriddenMethods set only grows. -/
def StoreLE (s s' : Store) : Prop :=
  ∀ f, sameSkeleton (s f) (s' f) ∧ (s f).overridden ⊆ (s' f).overridden

/-- Recognize an unimplemented-interface diagnostic. -/
def isUnimplDiag : DiagB → Bool
  | .unimplementedInterface _ _ => true
  | _ => false

/-- A two-function store: function 0 is a body-less method named f occupying
a vtable slot; function 1 is a same-named method of the current type. -/
def c8store : Store := fun i =>
  if i = 0 then
    ⟨"f", none, false, false, false, false, false, false, false, true,
      .instSC, 0, -1, []⟩
  else
    ⟨"f", none, true, false, false, false, false, false, false, true,
      .instSC, 0, -1, []⟩

/-- The hidden-member diagnostic slot i of a table would produce when no
override-compatible replacement exists: the occupant's name must match. -/
def slotHit (s : Store) (name : String) (table : List FnId) (i : Nat) :
    Option DiagB :=
  match table[i]? with
  | some m => if (s m).fname == name then some (DiagB.hiddenMember m) else none
  | none => none

/-! ## Constructor analysis (ClassAnalyzer::analyzeConstructors /
createDefaultConstructor)

The default-constructor synthesis.  Each member carries what the synthesis
inspects: name, kind, storage, visibility, its initializer expression (if
any), and its type's class together with the type's null-initializer
expression (Type::nullInitValue, an external call whose result is part of the
member's type description here).  Function signature analysis and expression
construction are external; what is embedded is which members produce which
parameters and body assignments, and when a constructor is synthesized at
all. -/

/-- An expression, reduced to the only property the synthesis asks of it. -/
structure CExpr where
  isConstant : Bool
deriving DecidableEq, Repr

/-- A member type as the synthesis sees it: its type class and the result of
its nullInitValue() call. -/
structure CTypeDesc where
  tyClass : TypeClass
  nullInit : Option CExpr
deriving DecidableEq, Repr

/-- A declared member as the Constructor pass sees it. -/
structure CMember where
  mname : String
  kind : DefnKind
  storage : SClass
  vis : Vis
  initValue : Option CExpr
  ty : CTypeDesc
deriving DecidableEq, Repr

/-- Diagnostics of the Constructor pass. -/
inductive DiagF where
  | noSuperDefaultCtor
  | letRuntimeInit (name : String)
  | unimplPrivateInit (name : String)
deriving DecidableEq, Repr

/-- A parameter of the synthesized constructor: its name and its default
value (none for a required parameter). -/
structure ParamD where
  pname : String
  defaultVal : Option CExpr
deriving DecidableEq, Repr

/-- A field assignment in the synthesized constructor body. -/
structure InitAssign where
  fieldName : String
deriving DecidableEq, Repr

/-- The synthesized default constructor. -/
structure SynthCtor where
  requiredParams : List ParamD
  optionalParams : List ParamD
  params : List ParamD
  bodyInits : List InitAssign
deriving DecidableEq, Repr

/-- The evolving state of createDefaultConstructor's member loop. -/
structure CDCAcc where
  required : List ParamD
  optional : List ParamD
  inits : List InitAssign
  diags : List DiagF
deriving DecidableEq, Repr

/-- One iteration of the member loop of createDefaultConstructor: instance
Lets with an initializer hit DFAIL (modelled as a diagnostic; a release build
continues with no effect); for an instance Var the default value is its
initializer, or else the type's null-init value if that is a compile-time
constant; native-array members are skipped; a public member becomes a
parameter (optional when a default value exists, required otherwise) and a
body assignment; a private member with a default is skipped (the source's
TODO), and a private member without one is a fatal diagnostic unless the
type is Object. -/
def cdcStep (typeIsObject : Bool) (m : CMember) (acc : CDCAcc) : CDCAcc :=
  if m.storage == .instSC then
    if m.kind == .letK then
      if m.initValue.isSome then
        { acc with diags := acc.diags ++ [.letRuntimeInit m.mname] }
      else acc
    else if m.kind == .varK then
      let defaultValue :=
        match m.initValue with
        | some dv => some dv
        | none =>
          match m.ty.nullInit with
          | some dv => if dv.isConstant then some dv else none
          | none => none
      if m.ty.tyClass == .narrayTC then acc
      else if m.vis == .publicVis then
        let param : ParamD := ⟨m.mname, defaultValue⟩
        if defaultValue.isSome then
          { acc with optional := acc.optional ++ [param],
                     inits := acc.inits ++ [⟨m.mname⟩] }
        else
          { acc with required := acc.required ++ [param],
                     inits := acc.inits ++ [⟨m.mname⟩] }
      else
        if defaultValue.isSome then acc
        else if typeIsObject then acc
        else { acc with diags := acc.diags ++ [.unimplPrivateInit m.mname] }
    else acc
  else acc

/-- ClassAnalyzer::createDefaultConstructor: fail when the super type has no
default constructor; otherwise build the parameter lists from the members
and put optional parameters after required ones.  superHasDefaultCtor is
none when there is no super type. -/
def createDefaultConstructor (typeIsObject : Bool)
    (superHasDefaultCtor : Option Bool) (members : List CMember) :
    Bool × Option SynthCtor × List DiagF :=
  match superHasDefaultCtor with
  | some false => (false, none, [.noSuperDefaultCtor])
  | _ =>
    let acc := members.foldl (fun acc m => cdcStep typeIsObject m acc) ⟨[], [], [], []⟩
    -- Optional params go after required params.
    let params := acc.required ++ acc.optional
    (true, some ⟨acc.required, acc.optional, params, acc.inits⟩, acc.diags)

/-- The loop over members named "construct": any FunctionDefn among them sets
hasConstructors; a non-function member is a fatal diagnostic that breaks the
loop before hasConstructors can be set, so the observable outcome is decided
by the first entry. -/
def constructScan (l : List CMember) : Bool :=
  match l with
  | [] => false
  | c :: _ => c.kind == .funcK

/-- The loop over members named "create": a static function counts toward
hasConstructors; non-functions are skipped silently. -/
def createScan (l : List CMember) : Bool :=
  l.any (fun c => c.kind == .funcK && c.storage == .staticSC)

/-- ClassAnalyzer::analyzeConstructors, restricted to the constructor-set
computation: only classes and structs take part; when neither a construct
member nor a static create member exists, the default constructor is
synthesized.  (The analysis of the declared constructors' signatures is
external.) -/
def analyzeConstructorsF (tcls : TypeClass) (typeIsObject : Bool)
    (superHasDefaultCtor : Option Bool) (members : List CMember) :
    Bool × Option SynthCtor × List DiagF :=
  if tcls == .classTC || tcls == .structTC then
    let constructs := members.filter (fun m => m.mname == "construct")
    let creates := members.filter (fun m => m.mname == "create")
    let hasConstructors := constructScan constructs || createScan creates
    if !hasConstructors then
      createDefaultConstructor typeIsObject superHasDefaultCtor members
    else (true, none, [])
  else (true, none, [])

/-- The effective null-initializer of a type: its nullInitValue when that is
a compile-time constant. -/
def effectiveNullInit (t : CTypeDesc) : Option CExpr :=
  match t.nullInit with
  | some e => if e.isConstant then some e else none
  | none => none

/-- The default value the synthesis ends up using for a member. -/
def effectiveDefault (m : CMember) : Option CExpr :=
  match m.initValue with
  | some dv => some dv
  | none => effectiveNullInit m.ty

/-- The required parameter a member contributes, if any: public instance Var
fields of non-native-array type with no initializer and no constant
null-initializer. -/
def requiredOf (m : CMember) : Option ParamD :=
  if m.kind == .varK && m.storage == .instSC && m.vis == .publicVis &&
      !(m.ty.tyClass == .narrayTC) && (effectiveDefault m).isNone
  then some ⟨m.mname, none⟩ else none

/-- The optional parameter a member contributes, if any: public instance Var
fields of non-native-array type that have an initializer or a constant
null-initializer. -/
def optionalOf (m : CMember) : Option ParamD :=
  if m.kind == .varK && m.storage == .instSC && m.vis == .publicVis &&
      !(m.ty.tyClass == .narrayTC) && (effectiveDefault m).isSome
  then some ⟨m.mname, effectiveDefault m⟩ else none

/-- The names of the public instance Var fields without default initializers
(what the claim says the required parameters correspond to). -/
def publicNoDefaultVarNames (members : List CMember) : List String :=
  (members.filter (fun m => m.kind == .varK && m.storage == .instSC &&
    m.vis == .publicVis && m.initValue.isNone)).map (fun m => m.mname)

/-- A class with a single public instance Var field of native-array type and
no default value. -/
def narrayFieldMembers : List CMember :=
  [⟨"x", .varK, .instSC, .publicVis, none, ⟨.narrayTC, none⟩⟩]

/-- A concrete base list: a protocol-kind base followed by an interface-kind
base. -/
def sampleBases : List BaseRes :=
  [.okRes ⟨3, .protocolTC, true, false⟩, .okRes ⟨4, .interfaceTC, true, false⟩]

/-- A stand-in descriptor for the builtin Object type. -/
def objectStandIn : BaseDesc := ⟨0, .classTC, true, false⟩

/-! ## Table-evolution invariants of the Overloading pass -/

/-- The per-slot invariant between a reference table and an evolved table of
the same length: every slot holds the reference entry itself or a method
recorded (possibly through a chain) as overriding it. -/
def SlotsInv (t0 t : List FnId) (s : Store) : Prop :=
  t.length = t0.length ∧
  ∀ (j : Nat) (a : FnId), t[j]? = some a →
    t0[j]? = some a ∨ ∃ b, t0[j]? = some b ∧ Overrides s a b

/-- The prefix flavor of the slot invariant: the evolved table may be longer
(new methods are appended), but on the reference prefix each slot holds the
reference entry or an overriding method. -/
def TableLE (t0 t : List FnId) (s : Store) : Prop :=
  t0.length ≤ t.length ∧
  ∀ (j : Nat) (a : FnId), j < t0.length → t[j]? = some a →
    t0[j]? = some a ∨ ∃ b, t0[j]? = some b ∧ Overrides s a b

/-- The interface-table invariant of the Overloading pass: every itable has
one slot per instance method of its interface, holding that method or an
override of it. -/
def OvInv (w : TypeWorld) (st : OvState) : Prop :=
  ∀ it ∈ st.itables, SlotsInv ((w it.1).instanceMethods) it.2 st.store

/-- How one substep of the Overloading pass relates its input state to its
output state: the store only grows, the instance method table evolves
prefix-wise, and the itable invariant is preserved. -/
def OvEvolves (w : TypeWorld) (st st' : OvState) : Prop :=
  StoreLE st.store st'.store ∧
  TableLE st.table st'.table st'.store ∧
  (OvInv w st → OvInv w st')

/-- The itable fold step of omOnItables, named. -/
def itStep (canOv : FunctionDefn → FunctionDefn → Bool) (overrides : List FnId)
    (acc : List (TypeId × List FnId) × Store × List DiagB)
    (it : TypeId × List FnId) : List (TypeId × List FnId) × Store × List DiagB :=
  let r := overrideMethods canOv false overrides ⟨it.2, acc.2.1, acc.2.2⟩
  (acc.1 ++ [(it.1, r.table)], r.store, r.diags)

/-- The itable fold step of opaOnItables, named. -/
def opaItStep (canOv : FunctionDefn → FunctionDefn → Bool) (propName : String)
    (accessors : List FnId) (acc : List (TypeId × List FnId) × Store × List DiagB)
    (it : TypeId × List FnId) : List (TypeId × List FnId) × Store × List DiagB :=
  let r := overridePropertyAccessors canOv false propName accessors
    ⟨it.2, acc.2.1, acc.2.2⟩
  (acc.1 ++ [(it.1, r.table)], r.store, r.diags)

/-- The methods block of processEntry, named. -/
def peBlock1 (canOv sameSig : FunctionDefn → FunctionDefn → Bool)
    (st : OvState) (ms : List FnId) : OvState :=
  if ms.isEmpty then st
  else
    let st := { st with
      diags := st.diags ++ ensureUniqueSignatures sameSig st.store ms }
    let st := omOnTable canOv true ms st
    omOnItables canOv ms st

/-- The accessor block of processEntry (used for getters and setters),
named. -/
def peBlock2 (canOv sameSig : FunctionDefn → FunctionDefn → Bool)
    (ps : PropStore) (st : OvState) (acc : List FnId)
    (lastProp : Option PropId) : OvState :=
  if acc.isEmpty then st
  else
    match lastProp with
    | none => st
    | some p =>
      let st := { st with
        diags := st.diags ++ ensureUniqueSignatures sameSig st.store acc }
      let st := opaOnTable canOv true ((ps p).propName) acc st
      opaOnItables canOv ((ps p).propName) acc st

/-- The member fold step of addNewMethods, named. -/
def anmStep (ps : PropStore) (st : OvState) (de : MemberRef) : OvState :=
  match de with
  | .fnM f =>
    let fd := st.store f
    if fd.storage == .instSC && fd.isSingularFn then
      let st :=
        if fd.isUndefined && fd.overridden.isEmpty then
          if !fd.isCtor || fd.arity != 0 then
            { st with diags := st.diags ++ [.undefNoOverride f] }
          else st
        else st
      if !fd.isCtor && !fd.isFinalFn && decide (fd.dispatchIndex < 0) then
        { st with
          store := setDispatch st.store f (Int.ofNat st.table.length),
          table := st.table ++ [f] }
      else st
    else st
  | .propM p =>
    let pd := ps p
    if pd.pstorage == .instSC && pd.pSingular then
      let st :=
        match pd.getter with
        | some g =>
          if !(st.store g).isFinalFn && decide ((st.store g).dispatchIndex < 0) then
            { st with
              store := setDispatch st.store g (Int.ofNat st.table.length),
              table := st.table ++ [g] }
          else st
        | none => st
      match pd.setter with
      | some t =>
        if !(st.store t).isFinalFn && decide ((st.store t).dispatchIndex < 0) then
          { st with
            store := setDispatch st.store t (Int.ofNat st.table.length),
            table := st.table ++ [t] }
        else st
      | none => st
    else st
  | .otherM => st

/-- The itable-creation fold step of createInterfaceTables, named. -/
def citStep (w : TypeWorld) (fuel : Nat) (A : TypeId) (st : OvState)
    (itype : TypeId) : OvState :=
  let parentImpl := findBaseImplementationOf w fuel A itype
  let methods :=
    match parentImpl with
    | some tbl => tbl
    | none => (w itype).instanceMethods
  { st with itables := st.itables ++ [(itype, methods)] }

/-- The method list createInterfaceTables seeds an itable with: a base's
existing itable for the interface when one exists, the interface's own
instance methods otherwise. -/
def citMethods (w : TypeWorld) (fuel : Nat) (A : TypeId) (itype : TypeId) :
    List FnId :=
  match findBaseImplementationOf w fuel A itype with
  | some tbl => tbl
  | none => (w itype).instanceMethods

/-- The per-index disjunction of C1 as the claim states it: slot i of the
evolved table is the same function as slot i of the primary base's table, or
directly records it among its overridden methods. -/
def inhOrOvB (s : Store) (tA tB : List FnId) (i : Nat) : Bool :=
  match tA[i]?, tB[i]? with
  | some a, some b => a == b || (s a).overridden.contains b
  | _, _ => false

/-- The two-type world of the C1 counterexample: type 0 is a class with
primary base 1 and no own methods yet; type 1 has an empty instance method
table. -/
def c1w : TypeWorld := fun t =>
  if t = 0 then ⟨.classTC, some 1, [1], [], []⟩
  else ⟨.classTC, none, [], [], []⟩

/-- The store of the C1 counterexample: every function is a singular
instance method named f with a body and no dispatch index. -/
def c1store : Store := fun _ =>
  ⟨"f", none, true, false, false, false, false, false, false, true,
    .instSC, 0, -1, []⟩

/-- The single symbol-table entry of the C1 counterexample. -/
def c1entries : List Entry := [⟨"f", [.fnM 5]⟩]

/-- The member list of the C1 counterexample. -/
def c1members : List MemberRef := [.fnM 5]

/-- A property store with no instance properties. -/
def c1ps : PropStore := fun _ => ⟨"p", .otherSC, false, none, none⟩

/-- A one-class world with no bases, methods or interfaces. -/
def c2w : TypeWorld := fun _ => ⟨.classTC, none, [], [], []⟩

/-- A world of classes whose primary base is type 1 and whose instance
method tables are empty. -/
def c1wWit : TypeWorld := fun _ => ⟨.classTC, some 1, [], [], []⟩

/-! ## Theorems -/

theorem stdStep_spec (t : Pass) (f : AState → Bool × AState)
    (h1 : ∀ st : AState, NoRunning st → st.passes.finished t = true → f st = (true, st))
    (h2 : ∀ st : AState, NoRunning st → st.passes.finished t = false →
      f st = (true, (st.beginPass t).finishPass t)) :
    FnSpec t f := by
  intro st hrun
  by_cases hf : st.passes.finished t
  · rw [h1 st hrun hf]
    exact ⟨rfl, fun p => by by_cases hp : p = t <;> simp [hp, hf], hrun, rfl⟩
  · rw [h2 st hrun (by simpa using hf)]
    refine ⟨rfl, fun p => ?_, fun p => ?_, rfl⟩
    · by_cases hp : p = t <;> simp [AState.finishPass, AState.beginPass, hp]
    · by_cases hp : p = t <;> simp [AState.finishPass, AState.beginPass, hp, hrun p]

theorem scopeCreationStep_spec (ok : Pass → Bool) (hok : ok .scopeCreation = true) :
    FnSpec .scopeCreation (scopeCreationStep ok) := by
  refine stdStep_spec _ _ (fun st h hf => ?_) (fun st h hf => ?_) <;>
    simp [scopeCreationStep, AState.beginOk, hf, h _, hok]

theorem attribStep_spec (ok : Pass → Bool) (hok : ok .attrib = true) :
    FnSpec .attrib (attribStep ok) := by
  refine stdStep_spec _ _ (fun st h hf => ?_) (fun st h hf => ?_) <;>
    simp [attribStep, AState.beginOk, hf, h _, hok]

theorem checkNameConflicts_spec (ok : Pass → Bool) (hok : ok .namingConflict = true) :
    FnSpec .namingConflict (checkNameConflicts ok) := by
  refine stdStep_spec _ _ (fun st h hf => ?_) (fun st h hf => ?_) <;>
    simp [checkNameConflicts, AState.beginOk, hf, h _, hok]

theorem analyzeBaseClassesReg_spec (ok : Pass → Bool) (hok : ok .baseTypes = true) :
    FnSpec .baseTypes (analyzeBaseClassesReg ok) := by
  refine stdStep_spec _ _ (fun st h hf => ?_) (fun st h hf => ?_) <;>
    simp [analyzeBaseClassesReg, AState.beginOk, hf, h _, hok]

theorem analyzeMemberTypesReg_spec : FnSpec .memberType analyzeMemberTypesReg := by
  refine stdStep_spec _ _ (fun st h hf => ?_) (fun st h hf => ?_) <;>
    simp [analyzeMemberTypesReg, AState.beginOk, hf, h _]

theorem analyzeFieldsReg_spec : FnSpec .fieldPass analyzeFieldsReg := by
  refine stdStep_spec _ _ (fun st h hf => ?_) (fun st h hf => ?_) <;>
    simp [analyzeFieldsReg, AState.beginOk, hf, h _]

theorem analyzeConvertersReg_spec : FnSpec .converter analyzeConvertersReg := by
  refine stdStep_spec _ _ (fun st h hf => ?_) (fun st h hf => ?_) <;>
    simp [analyzeConvertersReg, AState.beginOk, hf, h _]

theorem analyzeConstructorsReg_spec (ok : Pass → Bool) (hok : ok .ctorPass = true) :
    FnSpec .ctorPass (analyzeConstructorsReg ok) := by
  refine stdStep_spec _ _ (fun st h hf => ?_) (fun st h hf => ?_) <;>
    simp [analyzeConstructorsReg, AState.beginOk, hf, h _, hok]

theorem analyzeMethodsReg_spec : FnSpec .methodPass analyzeMethodsReg := by
  refine stdStep_spec _ _ (fun st h hf => ?_) (fun st h hf => ?_) <;>
    simp [analyzeMethodsReg, AState.beginOk, hf, h _]

theorem analyzeOverloadingReg_spec : FnSpec .overloading analyzeOverloadingReg := by
  refine stdStep_spec _ _ (fun st h hf => ?_) (fun st h hf => ?_) <;>
    simp [analyzeOverloadingReg, AState.beginOk, hf, h _]

theorem analyzeFieldTypesReg_spec : FnSpec .fieldTypePass analyzeFieldTypesReg := by
  refine stdStep_spec _ _ (fun st h hf => ?_) (fun st h hf => ?_) <;>
    simp [analyzeFieldTypesReg, AState.beginOk, hf, h _]

theorem analyzeCompletelyReg_spec : FnSpec .completion analyzeCompletelyReg := by
  refine stdStep_spec _ _ (fun st h hf => ?_) (fun st h hf => ?_) <;>
    simp [analyzeCompletelyReg, AState.beginOk, hf, h _]

theorem passChainRun_spec (toRun : PassSet) :
    ∀ (l : List (Pass × (AState → Bool × AState))) (st : AState),
    NoRunning st → (∀ pf ∈ l, FnSpec pf.1 pf.2) →
    (passChainRun toRun l st).1 = true ∧
    (∀ p, (passChainRun toRun l st).2.passes.finished p =
      (st.passes.finished p || (toRun p && (l.map Prod.fst).contains p))) ∧
    NoRunning (passChainRun toRun l st).2 ∧
    (passChainRun toRun l st).2.diags = st.diags := by
  intro l
  induction l with
  | nil =>
    intro st hrun _
    exact ⟨rfl, fun p => by simp [passChainRun], hrun, rfl⟩
  | cons tf rest ih =>
    intro st hrun hspec
    obtain ⟨t, f⟩ := tf
    have hf := hspec (t, f) (List.mem_cons_self _ _) st hrun
    by_cases hr : toRun t = true
    · have hfst : f st = (true, (f st).2) := by
        rw [← hf.1]
      have hrest := ih (f st).2 hf.2.2.1 (fun pf hm => hspec pf (List.mem_cons_of_mem _ hm))
      have hred : passChainRun toRun ((t, f) :: rest) st = passChainRun toRun rest (f st).2 := by
        rw [passChainRun, if_pos hr, hfst]
      rw [hred]
      refine ⟨hrest.1, fun p => ?_, hrest.2.2.1, by rw [hrest.2.2.2, hf.2.2.2]⟩
      rw [hrest.2.1 p, hf.2.1 p]
      by_cases hp : p = t
      · subst hp; simp [hr]
      · simp [hp, beq_eq_false_iff_ne.mpr hp]
    · have hred : passChainRun toRun ((t, f) :: rest) st = passChainRun toRun rest st := by
        rw [passChainRun, if_neg (by simpa using hr)]
      rw [hred]
      have hrest := ih st hrun (fun pf hm => hspec pf (List.mem_cons_of_mem _ hm))
      refine ⟨hrest.1, fun p => ?_, hrest.2.2.1, hrest.2.2.2⟩
      rw [hrest.2.1 p]
      by_cases hp : p = t
      · subst hp
        simp only [Bool.not_eq_true] at hr
        simp [hr]
      · simp [hp, beq_eq_false_iff_ne.mpr hp]

theorem pass_mem_all (p : Pass) : p ∈ allPasses := by
  cases p <;> simp [allPasses]

theorem chainFst_contains (p : Pass) :
    (([.scopeCreation, .attrib, .namingConflict, .baseTypes, .memberType,
       .fieldPass, .converter, .ctorPass, .methodPass, .overloading,
       .fieldTypePass, .completion] : List Pass).contains p) = true := by
  cases p <;> rfl

theorem runPasses_allOk (ok : Pass → Bool) (S : PassSet) (st : AState)
    (hok : ∀ p, ok p = true) (hrun : NoRunning st) :
    (runPasses ok plainTarget S st).1 = true ∧
    (∀ p, (runPasses ok plainTarget S st).2.passes.finished p =
      (st.passes.finished p || S p)) ∧
    NoRunning (runPasses ok plainTarget S st).2 ∧
    (runPasses ok plainTarget S st).2.diags = st.diags := by
  by_cases hempty : (S.removeAll st.passes.finished).isEmpty = true
  · have hred : runPasses ok plainTarget S st = (true, st) := by
      simp only [runPasses, hempty, if_true]
    rw [hred]
    refine ⟨rfl, fun p => ?_, hrun, rfl⟩
    have hp := List.all_eq_true.mp hempty p (pass_mem_all p)
    simp only [PassSet.removeAll] at hp
    cases hS : S p <;> cases hF : st.passes.finished p <;> simp_all
  · have hred : runPasses ok plainTarget S st =
        passChainRun (S.removeAll st.passes.finished)
          [(.scopeCreation, scopeCreationStep ok),
           (.attrib, attribStep ok),
           (.namingConflict, checkNameConflicts ok),
           (.baseTypes, analyzeBaseClassesReg ok),
           (.memberType, analyzeMemberTypesReg),
           (.fieldPass, analyzeFieldsReg),
           (.converter, analyzeConvertersReg),
           (.ctorPass, analyzeConstructorsReg ok),
           (.methodPass, analyzeMethodsReg),
           (.overloading, analyzeOverloadingReg),
           (.fieldTypePass, analyzeFieldTypesReg),
           (.completion, analyzeCompletelyReg)] st := by
      simp only [runPasses, hempty, if_false, plainTarget, Bool.false_eq_true]
    have hspecs : ∀ pf ∈ ([(Pass.scopeCreation, scopeCreationStep ok),
           (.attrib, attribStep ok),
           (.namingConflict, checkNameConflicts ok),
           (.baseTypes, analyzeBaseClassesReg ok),
           (.memberType, analyzeMemberTypesReg),
           (.fieldPass, analyzeFieldsReg),
           (.converter, analyzeConvertersReg),
           (.ctorPass, analyzeConstructorsReg ok),
           (.methodPass, analyzeMethodsReg),
           (.overloading, analyzeOverloadingReg),
           (.fieldTypePass, analyzeFieldTypesReg),
           (.completion, analyzeCompletelyReg)] :
             List (Pass × (AState → Bool × AState))), FnSpec pf.1 pf.2 := by
      intro pf hm
      simp only [List.mem_cons, List.not_mem_nil, or_false] at hm
      rcases hm with h|h|h|h|h|h|h|h|h|h|h|h <;> subst h
      · exact scopeCreationStep_spec ok (hok _)
      · exact attribStep_spec ok (hok _)
      · exact checkNameConflicts_spec ok (hok _)
      · exact analyzeBaseClassesReg_spec ok (hok _)
      · exact analyzeMemberTypesReg_spec
      · exact analyzeFieldsReg_spec
      · exact analyzeConvertersReg_spec
      · exact analyzeConstructorsReg_spec ok (hok _)
      · exact analyzeMethodsReg_spec
      · exact analyzeOverloadingReg_spec
      · exact analyzeFieldTypesReg_spec
      · exact analyzeCompletelyReg_spec
    have hc := passChainRun_spec (S.removeAll st.passes.finished) _ st hrun hspecs
    rw [hred]
    refine ⟨hc.1, fun p => ?_, hc.2.2.1, hc.2.2.2⟩
    rw [hc.2.1 p]
    have hcontains := chainFst_contains p
    simp only [List.map_cons, List.map_nil]
    rw [hcontains]
    simp only [PassSet.removeAll, Bool.and_true]
    cases hS : S p <;> cases hF : st.passes.finished p <;> simp

theorem analyzeTask_allOk (ok : Pass → Bool) (task : AnalysisTask) (st : AState)
    (hok : ∀ p, ok p = true) (hrun : NoRunning st) :
    (∀ p, (analyzeTask ok plainTarget task st).2.passes.finished p =
      (st.passes.finished p || taskPassSet task p)) ∧
    NoRunning (analyzeTask ok plainTarget task st).2 := by
  cases task <;>
    first
    | exact ⟨fun p => ((runPasses_allOk ok _ st hok hrun).2.1 p), (runPasses_allOk ok _ st hok hrun).2.2.1⟩
    | exact ⟨fun p => by simp [analyzeTask, taskPassSet], hrun⟩

theorem runTasks_allOk (ok : Pass → Bool) (tasks : List AnalysisTask)
    (hok : ∀ p, ok p = true) :
    ∀ st : AState, NoRunning st →
    (∀ p, (runTasks ok plainTarget tasks st).passes.finished p =
      (st.passes.finished p || tasks.any (fun τ => taskPassSet τ p))) ∧
    NoRunning (runTasks ok plainTarget tasks st) := by
  induction tasks with
  | nil => intro st hrun; exact ⟨fun p => by simp [runTasks], hrun⟩
  | cons τ rest ih =>
    intro st hrun
    have h1 := analyzeTask_allOk ok τ st hok hrun
    have h2 := ih (analyzeTask ok plainTarget τ st).2 h1.2
    have hred : runTasks ok plainTarget (τ :: rest) st =
        runTasks ok plainTarget rest (analyzeTask ok plainTarget τ st).2 := by
      simp [runTasks]
    rw [hred]
    refine ⟨fun p => ?_, h2.2⟩
    rw [(h2.1 p), (h1.1 p), List.any_cons]
    cases st.passes.finished p <;> cases taskPassSet τ p <;> simp

/-- Counterexample to C3 as stated: after analyze(Task_PrepTypeGeneration) on
a fresh non-template type with all pass bodies succeeding, FieldType is
finished while Converter (which precedes it in the claimed topological
order) is not, so the claimed pass-order invariant fails. -/
theorem c3_counterexample :
    ¬ specPassOrderInv
      (runTasks (fun _ => true) plainTarget [.prepTypeGeneration] freshAState) := by
  decide

/-- C3 (amended): after any sequence of analyze(task) calls on a fresh
non-template composite type in which every pass body succeeds, finished(p)
implies finished(q) for every pass q belonging to the pass set of every task
whose pass set contains p (the order actually guaranteed by the source's
task pass sets, rather than the claimed topological order). -/
theorem c3_amended (ok : Pass → Bool) (tasks : List AnalysisTask) (p q : Pass)
    (hok : ∀ r, ok r = true) (hcore : taskCore p q = true)
    (hp : (runTasks ok plainTarget tasks freshAState).passes.finished p = true) :
    (runTasks ok plainTarget tasks freshAState).passes.finished q = true := by
  have h := runTasks_allOk ok tasks hok freshAState (fun r => rfl)
  rw [h.1 p] at hp
  rw [h.1 q]
  simp only [freshAState, Bool.false_or] at hp ⊢
  obtain ⟨τ, hτmem, hτ⟩ := List.any_eq_true.mp hp
  refine List.any_eq_true.mpr ⟨τ, hτmem, ?_⟩
  have hτall : τ ∈ allTasks ∨ τ = .otherTask := by cases τ <;> simp [allTasks]
  rcases hτall with h'|h'
  · have hcq := List.all_eq_true.mp hcore τ h'
    rw [hτ] at hcq
    simpa using hcq
  · subst h'
    simp [taskPassSet] at hτ

theorem c3_amended_witness :
    (runTasks (fun _ => true) plainTarget [.prepTypeGeneration]
      freshAState).passes.finished .fieldPass = true :=
  c3_amended (fun _ => true) [.prepTypeGeneration] .fieldTypePass .fieldPass
    (fun _ => rfl) (by decide) (by decide)

/-- Counterexample to C4 as stated: analyze(Task_PrepCodeGeneration) on a
fresh non-template type succeeds, yet not every pass is finished afterwards
(FieldType is not run, since PASS_SET_CODEGEN omits FieldTypePass). -/
theorem c4_counterexample :
    (analyzeTask (fun _ => true) plainTarget .prepCodeGeneration freshAState).1 = true ∧
    ¬ (∀ p : Pass,
      (analyzeTask (fun _ => true) plainTarget .prepCodeGeneration
        freshAState).2.passes.finished p = true) := by
  decide

/-- C4 (amended): performing Task_PrepCodeGeneration on a fresh non-template
composite type runs (and, when every pass body succeeds, marks finished)
every pass of the enumeration except FieldType; after the successful
analyze(Task_PrepCodeGeneration), exactly the eleven passes other than
FieldType are finished. -/
theorem c4_amended (ok : Pass → Bool) (hok : ∀ p, ok p = true) :
    (analyzeTask ok plainTarget .prepCodeGeneration freshAState).1 = true ∧
    ∀ p : Pass,
      (analyzeTask ok plainTarget .prepCodeGeneration freshAState).2.passes.finished p
        = !(p == Pass.fieldTypePass) := by
  have h : ok = fun _ => true := funext (fun p => hok p)
  subst h
  decide

theorem c4_amended_witness :
    (analyzeTask (fun _ => true) plainTarget .prepCodeGeneration freshAState).1 = true ∧
    ∀ p : Pass,
      (analyzeTask (fun _ => true) plainTarget .prepCodeGeneration
        freshAState).2.passes.finished p = !(p == Pass.fieldTypePass) :=
  c4_amended (fun _ => true) (fun _ => rfl)

/-- C9: if the BaseTypes pass is requested on a composite type while that
same pass is already running on it (circular inheritance), the analyzer
emits the circular-inheritance diagnostic and returns failure, leaving the
state otherwise untouched (no recursion into the implementation). -/
theorem c9_circular_guard (ok : Pass → Bool) (st : AState)
    (hrun : st.passes.running .baseTypes = true) :
    analyzeBaseClassesReg ok st = (false, st.addDiag .circularInheritance) := by
  simp [analyzeBaseClassesReg, hrun]

theorem c9_circular_guard_witness :
    analyzeBaseClassesReg (fun _ => true) baseTypesRunningState =
      (false, baseTypesRunningState.addDiag .circularInheritance) :=
  c9_circular_guard (fun _ => true) baseTypesRunningState rfl

theorem fieldStep_spec (tcls : TypeClass) (m : FMember) (acc : FieldsAcc) :
    ((fieldStep tcls m acc).instanceFields = acc.instanceFields ++ [some m.fid] ∧
     (fieldStep tcls m acc).assigns = acc.assigns ++ [(m.fid, acc.count, acc.countRec)] ∧
     (fieldStep tcls m acc).count = acc.count + 1 ∧
     (fieldStep tcls m acc).countRec = acc.countRec + 1)
    ∨
    ((fieldStep tcls m acc).instanceFields = acc.instanceFields ∧
     (fieldStep tcls m acc).assigns = acc.assigns ∧
     (fieldStep tcls m acc).count = acc.count ∧
     (fieldStep tcls m acc).countRec = acc.countRec) := by
  unfold fieldStep
  split_ifs <;> simp

theorem analyzeFieldsGo_spec (tcls : TypeClass) :
    ∀ (ms : List FMember) (acc : FieldsAcc),
    acc.instanceFields.length = acc.count →
    (analyzeFieldsGo tcls ms acc).instanceFields.length =
      (analyzeFieldsGo tcls ms acc).count ∧
    (∃ tail, (analyzeFieldsGo tcls ms acc).instanceFields =
        acc.instanceFields ++ tail ∧ ∀ x ∈ tail, x ≠ none) ∧
    (∃ na, (analyzeFieldsGo tcls ms acc).assigns = acc.assigns ++ na ∧
      (∀ k a, na[k]? = some a →
        a.2.1 = acc.count + k ∧ a.2.2 = acc.countRec + k)) := by
  intro ms
  induction ms with
  | nil =>
    intro acc hlen
    exact ⟨hlen, ⟨[], by simp [analyzeFieldsGo], by simp⟩,
      ⟨[], by simp [analyzeFieldsGo], by simp⟩⟩
  | cons m rest ih =>
    intro acc hlen
    have hred : analyzeFieldsGo tcls (m :: rest) acc =
        analyzeFieldsGo tcls rest (fieldStep tcls m acc) := rfl
    rcases fieldStep_spec tcls m acc with ⟨hif, has, hc, hcr⟩ | ⟨hif, has, hc, hcr⟩
    · have hlen1 : (fieldStep tcls m acc).instanceFields.length = (fieldStep tcls m acc).count := by
        rw [hif, hc]; simp [hlen]
      obtain ⟨h1, ⟨tail, htail, htnn⟩, ⟨na, hna, hnaIdx⟩⟩ := ih (fieldStep tcls m acc) hlen1
      rw [hred]
      refine ⟨h1, ⟨some m.fid :: tail, ?_, ?_⟩,
        ⟨(m.fid, acc.count, acc.countRec) :: na, ?_, ?_⟩⟩
      · rw [htail, hif]; simp
      · intro x hx
        rw [List.mem_cons] at hx
        rcases hx with hx | hx
        · subst hx; simp
        · exact htnn x hx
      · rw [hna, has]; simp
      · intro k a hka
        match k, hka with
        | 0, hka =>
          simp only [List.getElem?_cons_zero, Option.some_inj] at hka
          subst hka
          exact ⟨by simp, by simp⟩
        | (k'+1), hka =>
          simp only [List.getElem?_cons_succ] at hka
          have := hnaIdx k' a hka
          rw [hc, hcr] at this
          omega
    · have hlen1 : (fieldStep tcls m acc).instanceFields.length = (fieldStep tcls m acc).count := by
        rw [hif, hc]; exact hlen
      obtain ⟨h1, ⟨tail, htail, htnn⟩, ⟨na, hna, hnaIdx⟩⟩ := ih (fieldStep tcls m acc) hlen1
      rw [hred]
      refine ⟨h1, ⟨tail, ?_, htnn⟩, ⟨na, ?_, ?_⟩⟩
      · rw [htail, hif]
      · rw [hna, has]
      · intro k a hka
        have := hnaIdx k a hka
        rw [hc, hcr] at this
        exact this

/-- C7: after the Field pass on a composite type, instanceFields[0] is the
reserved (NULL) superclass slot iff a super exists; the per-type index of
the instance-storage fields starts at 0 with no super and at 1 with one; each
stored field's cumulative index starts at the super's cumulative field count;
and the length of instanceFields equals the per-type instance field count. -/
theorem c7_field_layout (tcls : TypeClass) (hasSuper : Bool) (superRec : Nat)
    (ms : List FMember) :
    ((analyzeFields tcls hasSuper superRec ms).instanceFields[0]? = some none
      ↔ hasSuper = true) ∧
    (∀ k a, (analyzeFields tcls hasSuper superRec ms).assigns[k]? = some a →
      a.2.1 = (if hasSuper then 1 else 0) + k ∧
      a.2.2 = (if hasSuper then superRec else 0) + k) ∧
    (analyzeFields tcls hasSuper superRec ms).instanceFields.length =
      (analyzeFields tcls hasSuper superRec ms).count := by
  cases hasSuper
  · have h := analyzeFieldsGo_spec tcls ms ⟨[], [], [], 0, 0, []⟩ rfl
    obtain ⟨h1, ⟨tail, htail, htnn⟩, ⟨na, hna, hnaIdx⟩⟩ := h
    have hdef : analyzeFields tcls false superRec ms =
        analyzeFieldsGo tcls ms ⟨[], [], [], 0, 0, []⟩ := rfl
    rw [hdef]
    refine ⟨?_, ?_, h1⟩
    · rw [htail]
      simp only [List.nil_append]
      constructor
      · intro hx
        exfalso
        rcases h0 : tail[0]? with _ | x
        · rw [h0] at hx; exact Option.noConfusion hx
        · rw [h0] at hx
          exact htnn x (List.getElem?_mem h0) (by simpa using hx)
      · intro hx; exact Bool.noConfusion hx
    · intro k a hka
      rw [hna] at hka
      simp only [List.nil_append] at hka
      have := hnaIdx k a hka
      simpa using this
  · have h := analyzeFieldsGo_spec tcls ms ⟨[none], [], [], 1, superRec, []⟩ rfl
    obtain ⟨h1, ⟨tail, htail, htnn⟩, ⟨na, hna, hnaIdx⟩⟩ := h
    have hdef : analyzeFields tcls true superRec ms =
        analyzeFieldsGo tcls ms ⟨[none], [], [], 1, superRec, []⟩ := rfl
    rw [hdef]
    refine ⟨?_, ?_, h1⟩
    · rw [htail]
      simp
    · intro k a hka
      rw [hna] at hka
      simp only [List.nil_append] at hka
      have := hnaIdx k a hka
      simpa using this

theorem c7_field_layout_witness :
    ((analyzeFields .classTC true 5
        [⟨10, .varK, .instSC, false⟩, ⟨11, .varK, .staticSC, false⟩,
         ⟨12, .letK, .instSC, true⟩, ⟨13, .varK, .instSC, false⟩]).instanceFields[0]?
      = some none ↔ true = true) ∧
    (∀ k a, (analyzeFields .classTC true 5
        [⟨10, .varK, .instSC, false⟩, ⟨11, .varK, .staticSC, false⟩,
         ⟨12, .letK, .instSC, true⟩, ⟨13, .varK, .instSC, false⟩]).assigns[k]? = some a →
      a.2.1 = (if true then 1 else 0) + k ∧
      a.2.2 = (if true then 5 else 0) + k) ∧
    (analyzeFields .classTC true 5
        [⟨10, .varK, .instSC, false⟩, ⟨11, .varK, .staticSC, false⟩,
         ⟨12, .letK, .instSC, true⟩, ⟨13, .varK, .instSC, false⟩]).instanceFields.length =
      (analyzeFields .classTC true 5
        [⟨10, .varK, .instSC, false⟩, ⟨11, .varK, .staticSC, false⟩,
         ⟨12, .letK, .instSC, true⟩, ⟨13, .varK, .instSC, false⟩]).count :=
  c7_field_layout .classTC true 5
    [⟨10, .varK, .instSC, false⟩, ⟨11, .varK, .staticSC, false⟩,
     ⟨12, .letK, .instSC, true⟩, ⟨13, .varK, .instSC, false⟩]

theorem abcStep_okRes_spec (dtype : TypeClass)
    (hd : dtype = .structTC ∨ dtype = .interfaceTC)
    (ift : Bool) (recOk : Nat → Bool) (b : BaseDesc) (primary : Option BaseDesc)
    (bases : List Nat) (ds : List DiagE)
    (hcont : (abcStep dtype ift recOk (.okRes b) primary bases ds).1 = true) :
    (abcStep dtype ift recOk (.okRes b) primary bases ds).2.1 =
      (if allowedPrimary dtype b.btc && primary.isNone then some b else primary) ∧
    (abcStep dtype ift recOk (.okRes b) primary bases ds).2.2.1 =
      (if allowedPrimary dtype b.btc && primary.isNone then bases
       else bases ++ [b.bid]) := by
  rcases hd with rfl | rfl <;>
  rcases b with ⟨bid, btc, bs, bf⟩ <;>
  by_cases hr : recOk bid <;>
  cases btc <;> cases bs <;> cases bf <;> cases primary <;> cases ift <;>
  first
    | (exfalso; revert hcont; simp [abcStep, hr]; done)
    | (constructor <;> simp [abcStep, allowedPrimary, hr])

theorem abcLoop_spec (dtype : TypeClass)
    (hd : dtype = .structTC ∨ dtype = .interfaceTC)
    (ift : Bool) (recOk : Nat → Bool) :
    ∀ (rl : List BaseRes) (primary : Option BaseDesc) (bases : List Nat)
      (ds : List DiagE),
    (abcLoop dtype ift recOk rl primary bases ds).1 = true →
    ((abcLoop dtype ift recOk rl primary bases ds).2.1 =
      (match primary with
       | some p => some p
       | none => (rl.filterMap okDesc).find? (fun d => allowedPrimary dtype d.btc))) ∧
    (∀ x ∈ bases, x ∈ (abcLoop dtype ift recOk rl primary bases ds).2.2.1) ∧
    (∀ d ∈ rl.filterMap okDesc,
      d.bid ∈ (abcLoop dtype ift recOk rl primary bases ds).2.2.1 ∨
      (abcLoop dtype ift recOk rl primary bases ds).2.1 = some d) := by
  intro rl
  induction rl with
  | nil =>
    intro primary bases ds _
    refine ⟨?_, fun x hx => hx, fun d hd' => by simp at hd'⟩
    cases primary <;> simp [abcLoop]
  | cons r rest ih =>
    intro primary bases ds hok
    rcases r with _ | _ | b
    · exfalso; revert hok; simp [abcLoop, abcStep]
    · exfalso; revert hok; simp [abcLoop, abcStep]
    · have hcont : (abcStep dtype ift recOk (.okRes b) primary bases ds).1 = true := by
        by_contra hc
        rw [Bool.not_eq_true] at hc
        revert hok
        rcases habc : abcStep dtype ift recOk (.okRes b) primary bases ds with ⟨c, pr, bs, ds'⟩
        rw [habc] at hc
        simp only at hc
        subst hc
        simp [abcLoop, habc]
      obtain ⟨hpr, hbs⟩ := abcStep_okRes_spec dtype hd ift recOk b primary bases ds hcont
      rcases habc : abcStep dtype ift recOk (.okRes b) primary bases ds with ⟨c, pr, bs, ds'⟩
      rw [habc] at hcont hpr hbs
      simp only at hcont hpr hbs
      subst hcont
      have hred : abcLoop dtype ift recOk (.okRes b :: rest) primary bases ds =
          abcLoop dtype ift recOk rest pr bs ds' := by
        rw [abcLoop, habc]
      rw [hred] at hok ⊢
      obtain ⟨ih1, ih2, ih3⟩ := ih pr bs ds' hok
      by_cases hall : (allowedPrimary dtype b.btc && primary.isNone) = true
      · rw [if_pos hall] at hpr hbs
        have hprimNone : primary = none := by
          rcases primary with _ | p
          · rfl
          · simp [Option.isNone] at hall
        subst hprimNone
        have hballowed : allowedPrimary dtype b.btc = true := by
          simpa using hall
        have hihp : (abcLoop dtype ift recOk rest pr bs ds').2.1 = some b := by
          rw [ih1, hpr]
        refine ⟨?_, ?_, ?_⟩
        · rw [hihp]
          simp [List.filterMap_cons, okDesc, List.find?, hballowed]
        · intro x hx
          exact ih2 x (by rw [hbs]; exact hx)
        · intro d hd'
          simp only [List.filterMap_cons, okDesc] at hd'
          rcases List.mem_cons.mp hd' with hdb | hdr
          · subst hdb
            right
            exact hihp
          · exact ih3 d hdr
      · rw [if_neg hall] at hpr hbs
        refine ⟨?_, ?_, ?_⟩
        · rw [ih1, hpr]
          rcases primary with _ | p
          · simp only [Option.isNone_none, Bool.and_true] at hall
            rw [Bool.not_eq_true] at hall
            simp [List.filterMap_cons, okDesc, List.find?, hall]
          · rfl
        · intro x hx
          exact ih2 x (by rw [hbs]; simp [hx])
        · intro d hd'
          simp only [List.filterMap_cons, okDesc] at hd'
          rcases List.mem_cons.mp hd' with hdb | hdr
          · subst hdb
            left
            exact ih2 d.bid (by rw [hbs]; simp)
          · exact ih3 d hdr

theorem analyzeBaseClassesImpl_eq (dtype : TypeClass) (targetFinal ift : Bool)
    (recOk : Nat → Bool) (resolvedBases : List BaseRes) (targetIsObject : Bool)
    (objectDesc : BaseDesc) :
    analyzeBaseClassesImpl dtype true targetFinal ift recOk resolvedBases
      targetIsObject objectDesc =
      (match abcLoop dtype ift recOk resolvedBases none []
          (if targetFinal then
            (if dtype == .interfaceTC then [DiagE.interfaceFinal]
             else if dtype == .protocolTC then [DiagE.protocolFinal] else [])
           else []) with
       | (false, _, bases, ds) => ⟨false, none, bases, ds⟩
       | (true, primary, bases, ds) =>
         match (if dtype == .classTC && primary.isNone && !targetIsObject then
             some objectDesc else primary) with
         | some p => ⟨true, some p.bid, p.bid :: bases, ds⟩
         | none => ⟨true, none, bases, ds⟩) := rfl

/-- Counterexample to C5 as stated: a struct whose single base resolves to a
protocol-kind type selects that protocol as its primary base (super), so a
protocol base of a struct is not always recorded as a secondary base and the
primary base of a struct is not only ever struct-kind. -/
theorem c5_counterexample :
    ¬ (∀ d : BaseDesc, d.btc = .protocolTC →
      (analyzeBaseClassesImpl .structTC true false false (fun _ => true)
        [.okRes d] false ⟨0, .classTC, true, false⟩).superT ≠ some d.bid) := by
  intro h
  exact h ⟨7, .protocolTC, true, false⟩ rfl (by decide)

/-- C5 (amended): during the BaseTypes pass on a struct or interface target,
the primary base is the first base whose kind the target admits (struct-kind
or protocol-kind for a struct; interface-kind or protocol-kind for an
interface) — so a protocol-kind base is selected as the primary base when it
is the first admissible base, and is recorded as a secondary base only when a
primary base was already selected; every other resolved base lands in the
bases list. -/
theorem c5_amended (dtype : TypeClass)
    (hd : dtype = .structTC ∨ dtype = .interfaceTC)
    (targetFinal ift : Bool) (recOk : Nat → Bool) (resolvedBases : List BaseRes)
    (targetIsObject : Bool) (objectDesc : BaseDesc)
    (hok : (analyzeBaseClassesImpl dtype true targetFinal ift recOk resolvedBases
      targetIsObject objectDesc).ok = true) :
    (analyzeBaseClassesImpl dtype true targetFinal ift recOk resolvedBases
      targetIsObject objectDesc).superT =
      ((resolvedBases.filterMap okDesc).find?
        (fun d => allowedPrimary dtype d.btc)).map (fun d => d.bid) ∧
    (∀ d ∈ resolvedBases.filterMap okDesc,
      (analyzeBaseClassesImpl dtype true targetFinal ift recOk resolvedBases
        targetIsObject objectDesc).superT = some d.bid ∨
      d.bid ∈ (analyzeBaseClassesImpl dtype true targetFinal ift recOk resolvedBases
        targetIsObject objectDesc).basesList) := by
  rw [analyzeBaseClassesImpl_eq] at hok ⊢
  rcases hloop : abcLoop dtype ift recOk resolvedBases none []
      (if targetFinal then
        (if dtype == .interfaceTC then [DiagE.interfaceFinal]
         else if dtype == .protocolTC then [DiagE.protocolFinal] else [])
       else []) with ⟨c, pr, bs, ds1⟩
  rw [hloop] at hok
  have hclass : (dtype == TypeClass.classTC) = false := by
    rcases hd with rfl | rfl <;> rfl
  cases c
  · exact absurd hok (by simp)
  · have hl := abcLoop_spec dtype hd ift recOk resolvedBases none []
      (if targetFinal then
        (if dtype == .interfaceTC then [DiagE.interfaceFinal]
         else if dtype == .protocolTC then [DiagE.protocolFinal] else [])
       else []) (by rw [hloop])
    rw [hloop] at hl
    simp only at hl
    obtain ⟨hl1, _, hl3⟩ := hl
    simp only [hclass, Bool.false_and, Bool.false_eq_true, if_false]
    rcases pr with _ | p
    · constructor
      · rw [← hl1]
        rfl
      · intro d hd'
        rcases hl3 d hd' with h | h
        · right; exact h
        · exact absurd h (by simp)
    · constructor
      · rw [← hl1]
        rfl
      · intro d hd'
        rcases hl3 d hd' with h | h
        · right
          simp only [List.mem_cons]
          right
          exact h
        · left
          simp only [Option.some_inj] at h
          rw [h]

theorem c5_amended_witness :
    (analyzeBaseClassesImpl .interfaceTC true false false (fun _ => true)
      sampleBases false objectStandIn).superT =
      ((sampleBases.filterMap okDesc).find?
        (fun d => allowedPrimary .interfaceTC d.btc)).map (fun d => d.bid) ∧
    (∀ d ∈ sampleBases.filterMap okDesc,
      (analyzeBaseClassesImpl .interfaceTC true false false (fun _ => true)
        sampleBases false objectStandIn).superT = some d.bid ∨
      d.bid ∈ (analyzeBaseClassesImpl .interfaceTC true false false (fun _ => true)
        sampleBases false objectStandIn).basesList) :=
  c5_amended .interfaceTC (Or.inr rfl) false false (fun _ => true)
    sampleBases false objectStandIn (by decide)

theorem cdcStep_spec (tio : Bool) (m : CMember) (acc : CDCAcc) :
    (cdcStep tio m acc).required = acc.required ++ (requiredOf m).toList ∧
    (cdcStep tio m acc).optional = acc.optional ++ (optionalOf m).toList := by
  rcases m with ⟨name, kind, storage, vis, initV, ⟨tyc, nullI⟩⟩
  by_cases htyc : tyc = TypeClass.narrayTC <;>
  rcases initV with _ | ⟨c1⟩ <;>
  rcases nullI with _ | ⟨c2⟩ <;>
  (try cases c1) <;> (try cases c2) <;>
  cases kind <;> cases storage <;> cases vis <;>
  simp [cdcStep, requiredOf, optionalOf, effectiveDefault, effectiveNullInit, htyc] <;>
  split_ifs <;> simp_all

theorem cdcFold_spec (tio : Bool) :
    ∀ (members : List CMember) (acc : CDCAcc),
    (members.foldl (fun acc m => cdcStep tio m acc) acc).required =
      acc.required ++ members.filterMap requiredOf ∧
    (members.foldl (fun acc m => cdcStep tio m acc) acc).optional =
      acc.optional ++ members.filterMap optionalOf := by
  intro members
  induction members with
  | nil => intro acc; simp
  | cons m rest ih =>
    intro acc
    simp only [List.foldl_cons]
    obtain ⟨h1, h2⟩ := ih (cdcStep tio m acc)
    obtain ⟨s1, s2⟩ := cdcStep_spec tio m acc
    rw [h1, s1, h2, s2]
    constructor <;>
    · rcases hm : requiredOf m with _ | p <;> rcases hm2 : optionalOf m with _ | q <;>
        simp [List.filterMap_cons, hm, hm2]

/-- Counterexample to C6 as stated: a class with no constructor and no
create member whose only field is a public instance Var of native-array type
with no default gets a synthesized default constructor with an empty
required-parameter list, although the claim requires a required parameter
for every public instance-storage non-Let field with no default (the NArray
branch of createDefaultConstructor skips the field entirely). -/
theorem c6_counterexample :
    ¬ (((analyzeConstructorsF .classTC false none narrayFieldMembers).2.1.map
        (fun ct => ct.requiredParams.map (fun p => p.pname))) =
       some (publicNoDefaultVarNames narrayFieldMembers)) := by
  decide

/-- C6 (amended): for a class or struct with no user-declared constructor
and no static create member (and whose super, if any, has a default
constructor), the Constructor pass synthesizes exactly one default
constructor; its parameters are built from the public, instance-storage,
non-Let fields of non-native-array type: a field with a default initializer
(or with no initializer but whose type supplies a compile-time-constant null
initializer) becomes an optional parameter, every other such field becomes a
required parameter, and all required parameters precede all optional
parameters. -/
theorem c6_amended (tcls : TypeClass) (typeIsObject : Bool)
    (superHasDefaultCtor : Option Bool) (members : List CMember)
    (htc : tcls = .classTC ∨ tcls = .structTC)
    (hnoc : (constructScan (members.filter (fun m => m.mname == "construct")) ||
      createScan (members.filter (fun m => m.mname == "create"))) = false)
    (hsup : superHasDefaultCtor ≠ some false) :
    ∃ ct, (analyzeConstructorsF tcls typeIsObject superHasDefaultCtor members).2.1
        = some ct ∧
      ct.requiredParams = members.filterMap requiredOf ∧
      ct.optionalParams = members.filterMap optionalOf ∧
      ct.params = ct.requiredParams ++ ct.optionalParams := by
  have htcb : (tcls == TypeClass.classTC || tcls == TypeClass.structTC) = true := by
    rcases htc with rfl | rfl <;> rfl
  have hcdc : analyzeConstructorsF tcls typeIsObject superHasDefaultCtor members =
      createDefaultConstructor typeIsObject superHasDefaultCtor members := by
    simp only [analyzeConstructorsF, htcb, hnoc, Bool.not_false, if_true]
  rw [hcdc]
  obtain ⟨h1, h2⟩ := cdcFold_spec typeIsObject members ⟨[], [], [], []⟩
  rcases superHasDefaultCtor with _ | b
  · refine ⟨_, rfl, ?_, ?_, rfl⟩ <;> simp [h1, h2]
  · cases b
    · exact absurd rfl hsup
    · refine ⟨_, rfl, ?_, ?_, rfl⟩ <;> simp [h1, h2]

theorem c6_amended_witness :
    ∃ ct, (analyzeConstructorsF .classTC false (some true)
        [⟨"a", .varK, .instSC, .publicVis, none, ⟨.classTC, none⟩⟩,
         ⟨"b", .varK, .instSC, .publicVis, some ⟨true⟩, ⟨.classTC, none⟩⟩,
         ⟨"c", .varK, .instSC, .privateVis, some ⟨true⟩, ⟨.classTC, none⟩⟩]).2.1
        = some ct ∧
      ct.requiredParams =
        ([⟨"a", .varK, .instSC, .publicVis, none, ⟨.classTC, none⟩⟩,
          ⟨"b", .varK, .instSC, .publicVis, some ⟨true⟩, ⟨.classTC, none⟩⟩,
          ⟨"c", .varK, .instSC, .privateVis, some ⟨true⟩, ⟨.classTC, none⟩⟩] :
            List CMember).filterMap requiredOf ∧
      ct.optionalParams =
        ([⟨"a", .varK, .instSC, .publicVis, none, ⟨.classTC, none⟩⟩,
          ⟨"b", .varK, .instSC, .publicVis, some ⟨true⟩, ⟨.classTC, none⟩⟩,
          ⟨"c", .varK, .instSC, .privateVis, some ⟨true⟩, ⟨.classTC, none⟩⟩] :
            List CMember).filterMap optionalOf ∧
      ct.params = ct.requiredParams ++ ct.optionalParams :=
  c6_amended .classTC false (some true)
    [⟨"a", .varK, .instSC, .publicVis, none, ⟨.classTC, none⟩⟩,
     ⟨"b", .varK, .instSC, .publicVis, some ⟨true⟩, ⟨.classTC, none⟩⟩,
     ⟨"c", .varK, .instSC, .privateVis, some ⟨true⟩, ⟨.classTC, none⟩⟩]
    (Or.inl rfl) (by decide) (by decide)

theorem sameSkeleton_refl (a : FunctionDefn) : sameSkeleton a a := by
  unfold sameSkeleton
  exact ⟨rfl, rfl, rfl, rfl, rfl, rfl, rfl, rfl, rfl, rfl, rfl, rfl⟩

theorem sameSkeleton_trans {a b c : FunctionDefn}
    (h1 : sameSkeleton a b) (h2 : sameSkeleton b c) : sameSkeleton a c := by
  unfold sameSkeleton at h1 h2 ⊢
  obtain ⟨e1, e2, e3, e4, e5, e6, e7, e8, e9, e10, e11, e12⟩ := h1
  obtain ⟨f1, f2, f3, f4, f5, f6, f7, f8, f9, f10, f11, f12⟩ := h2
  exact ⟨e1.trans f1, e2.trans f2, e3.trans f3, e4.trans f4, e5.trans f5,
    e6.trans f6, e7.trans f7, e8.trans f8, e9.trans f9, e10.trans f10,
    e11.trans f11, e12.trans f12⟩

theorem storeLE_refl (s : Store) : StoreLE s s :=
  fun f => ⟨sameSkeleton_refl (s f), fun _ h => h⟩

theorem storeLE_trans {s1 s2 s3 : Store} (h1 : StoreLE s1 s2)
    (h2 : StoreLE s2 s3) : StoreLE s1 s3 :=
  fun f => ⟨sameSkeleton_trans (h1 f).1 (h2 f).1,
    fun _ hx => (h2 f).2 ((h1 f).2 hx)⟩

theorem setDispatch_le (s : Store) (f : FnId) (i : Int) :
    StoreLE s (setDispatch s f i) := by
  intro g
  unfold setDispatch updateFn
  by_cases hg : g = f
  · subst hg
    simp only [if_pos rfl]
    exact ⟨⟨rfl, rfl, rfl, rfl, rfl, rfl, rfl, rfl, rfl, rfl, rfl, rfl⟩,
      fun x hx => hx⟩
  · simp only [if_neg hg]
    exact ⟨sameSkeleton_refl _, fun x hx => hx⟩

theorem insertOverridden_le (s : Store) (f m : FnId) :
    StoreLE s (insertOverridden s f m) := by
  intro g
  unfold insertOverridden updateFn
  by_cases hmem : m ∈ (s f).overridden
  · simp only [if_pos hmem]
    exact ⟨sameSkeleton_refl _, fun x hx => hx⟩
  · simp only [if_neg hmem]
    by_cases hg : g = f
    · subst hg
      simp only [if_pos rfl]
      exact ⟨⟨rfl, rfl, rfl, rfl, rfl, rfl, rfl, rfl, rfl, rfl, rfl, rfl⟩,
        fun x hx => List.mem_cons_of_mem _ hx⟩
    · simp only [if_neg hg]
      exact ⟨sameSkeleton_refl _, fun x hx => hx⟩

theorem insertOverridden_mem (s : Store) (f m : FnId) :
    m ∈ ((insertOverridden s f m) f).overridden := by
  unfold insertOverridden updateFn
  by_cases hmem : m ∈ (s f).overridden
  · simp only [if_pos hmem]
    exact hmem
  · simp only [if_neg hmem, if_pos rfl]
    exact List.mem_cons_self _ _

theorem reaches_mono {s s' : Store} (hle : StoreLE s s') :
    ∀ n f g, reaches s n f g = true → reaches s' n f g = true := by
  intro n
  induction n with
  | zero => intro f g h; exact absurd h (by simp [reaches])
  | succ n ih =>
    intro f g h
    rw [reaches] at h ⊢
    rcases Bool.or_eq_true_iff.mp h with h1 | h2
    · apply Bool.or_eq_true_iff.mpr
      left
      have h1' : g ∈ (s f).overridden := by simpa using h1
      simpa using (hle f).2 h1'
    · apply Bool.or_eq_true_iff.mpr
      right
      rw [List.any_eq_true] at h2 ⊢
      obtain ⟨x, hx, hr⟩ := h2
      exact ⟨x, (hle f).2 hx, ih x g hr⟩

theorem overrides_mono {s s' : Store} (hle : StoreLE s s') {f g : FnId}
    (h : Overrides s f g) : Overrides s' f g := by
  obtain ⟨n, hn⟩ := h
  exact ⟨n, reaches_mono hle n f g hn⟩

theorem overrides_of_mem {s : Store} {f m : FnId}
    (h : m ∈ (s f).overridden) : Overrides s f m := by
  refine ⟨1, ?_⟩
  rw [reaches]
  apply Bool.or_eq_true_iff.mpr
  left
  simpa using h

theorem overrides_extend {s s' : Store} {f m g : FnId} (hle : StoreLE s s')
    (hov : Overrides s m g) (hmem : m ∈ (s' f).overridden) :
    Overrides s' f g := by
  obtain ⟨n, hn⟩ := hov
  refine ⟨n + 1, ?_⟩
  rw [reaches]
  apply Bool.or_eq_true_iff.mpr
  right
  rw [List.any_eq_true]
  exact ⟨m, hmem, reaches_mono hle n m g hn⟩

theorem findOverride_none {canOv : FunctionDefn → FunctionDefn → Bool}
    (hco : ∀ a b, canOv a b = false) (s : Store) (m : FnId)
    (overrides : List FnId) : findOverride canOv s m overrides = none := by
  unfold findOverride
  rw [List.find?_eq_none]
  intro _ _
  simp [hco]

theorem omStep_nohit {canOv : FunctionDefn → FunctionDefn → Bool}
    (hco : ∀ a b, canOv a b = false) (canHide : Bool) (name : String)
    (overrides : List FnId) (st : OMState) (i : Nat) :
    overrideMethodsStep canOv canHide name overrides st i =
      { st with diags := st.diags ++
        (match st.table[i]? with
         | some m =>
           if (st.store m).fname == name then
             (if canHide then [DiagB.hiddenMember m] else [])
           else []
         | none => []) } := by
  unfold overrideMethodsStep
  rcases hi : st.table[i]? with _ | m
  · simp
  · simp only [findOverride_none hco]
    by_cases hname : ((st.store m).fname == name) = true
    · cases canHide <;> simp [hname]
    · simp [hname]

theorem om_fold_nohit {canOv : FunctionDefn → FunctionDefn → Bool}
    (hco : ∀ a b, canOv a b = false) (canHide : Bool) (name : String)
    (overrides : List FnId) :
    ∀ (idxs : List Nat) (st : OMState),
    (idxs.foldl (overrideMethodsStep canOv canHide name overrides) st) =
      { st with diags := st.diags ++
        idxs.filterMap (fun i =>
          match st.table[i]? with
          | some m =>
            if (st.store m).fname == name then
              (if canHide then some (DiagB.hiddenMember m) else none)
            else none
          | none => none) } := by
  intro idxs
  induction idxs with
  | nil => intro st; simp
  | cons i rest ih =>
    intro st
    rw [List.foldl_cons, omStep_nohit hco, ih]
    simp only [List.filterMap_cons]
    rcases hi : st.table[i]? with _ | m
    · simp
    · by_cases hname : ((st.store m).fname == name) = true
      · cases canHide <;> simp [hname, List.append_assoc]
      · simp [hname]

theorem filterMap_if_eq_map_filter {α β : Type} (p : α → Bool) (f : α → β) :
    ∀ l : List α,
    l.filterMap (fun x => if p x then some (f x) else none) =
      (l.filter p).map f := by
  intro l
  induction l with
  | nil => simp
  | cons a t ih =>
    by_cases hp : p a = true
    · simp [List.filterMap_cons, List.filter_cons, hp, ih]
    · simp [List.filterMap_cons, List.filter_cons, hp, ih]

theorem omStep_no_hidden (canOv : FunctionDefn → FunctionDefn → Bool)
    (name : String) (overrides : List FnId) (st : OMState) (i : Nat) :
    ∀ m, DiagB.hiddenMember m ∈
      (overrideMethodsStep canOv false name overrides st i).diags →
      DiagB.hiddenMember m ∈ st.diags := by
  intro m hm
  rcases hi : st.table[i]? with _ | occ
  · simpa [overrideMethodsStep, hi] using hm
  · by_cases hname : ((st.store occ).fname == name) = true
    · rcases hfo : findOverride canOv st.store occ overrides with _ | nm
      · simpa [overrideMethodsStep, hi, hname, hfo] using hm
      · simp only [overrideMethodsStep, hi, hname, hfo, Bool.false_and,
          Bool.false_eq_true, if_false, if_true] at hm
        by_cases hb : ((st.store occ).hasBody && !(st.store nm).isOverrideDecl) = true
        · simp only [hb, if_true] at hm
          rcases List.mem_append.mp hm with h | h
          · exact h
          · simp at h
        · simp only [hb, Bool.false_eq_true, if_false] at hm
          exact hm
    · simpa [overrideMethodsStep, hi, hname] using hm

theorem om_fold_no_hidden (canOv : FunctionDefn → FunctionDefn → Bool)
    (name : String) (overrides : List FnId) :
    ∀ (idxs : List Nat) (st : OMState) (m : FnId),
    DiagB.hiddenMember m ∈
      (idxs.foldl (overrideMethodsStep canOv false name overrides) st).diags →
    DiagB.hiddenMember m ∈ st.diags := by
  intro idxs
  induction idxs with
  | nil => intro st m hm; exact hm
  | cons i rest ih =>
    intro st m hm
    rw [List.foldl_cons] at hm
    exact omStep_no_hidden canOv name overrides st i m (ih _ m hm)

theorem om_fold_nohit_true {canOv : FunctionDefn → FunctionDefn → Bool}
    (hco : ∀ a b, canOv a b = false) (name : String) (overrides : List FnId) :
    ∀ (idxs : List Nat) (st : OMState),
    (idxs.foldl (overrideMethodsStep canOv true name overrides) st) =
      { st with diags := st.diags ++
        idxs.filterMap (slotHit st.store name st.table) } := by
  intro idxs
  induction idxs with
  | nil => intro st; simp
  | cons i rest ih =>
    intro st
    rw [List.foldl_cons, omStep_nohit hco, ih]
    simp only [List.filterMap_cons]
    rcases hi : st.table[i]? with _ | m
    · simp [slotHit, hi]
    · by_cases hname : ((st.store m).fname == name) = true
      · simp [slotHit, hi, hname, List.append_assoc]
      · simp [slotHit, hi, hname]

theorem range_filterMap_slotHit (s : Store) (name : String) :
    ∀ table : List FnId,
    (List.range table.length).filterMap (slotHit s name table) =
      (table.filter (fun m => (s m).fname == name)).map DiagB.hiddenMember := by
  intro table
  induction table with
  | nil => simp
  | cons a t ih =>
    rw [List.length_cons, List.range_succ_eq_map, List.filterMap_cons]
    rw [List.filterMap_map]
    have hcomp : (slotHit s name (a :: t) ∘ (fun i => i + 1)) = slotHit s name t := by
      funext i
      simp [slotHit, Function.comp]
    rw [hcomp, ih]
    by_cases ha : ((s a).fname == name) = true
    · simp [slotHit, List.filter_cons, ha]
    · simp [slotHit, List.filter_cons, ha]

/-- Counterexample to C8 as stated: with canHide true, a same-named method
group none of which is override-compatible with the slot occupant triggers
the hidden-member warning even though the occupant has no body, so the
warning is not emitted iff the occupant has a body. -/
theorem c8_counterexample :
    ¬ ((DiagB.hiddenMember 0 ∈
        (overrideMethods (fun _ _ => false) true [1] ⟨[0], c8store, []⟩).diags)
       ↔ (c8store 0).hasBody = true) := by
  decide

/-- C8 (amended): in the override substep, when none of the current type's
same-named methods is override-compatible with any slot occupant, a
hidden-member warning is emitted for every slot whose occupant has the
shared name — regardless of whether the occupant has a body — when the
table is the instance method table (canHide true); and a hidden-member
warning is never emitted for itable slots (canHide false), for any
override-compatibility oracle. -/
theorem c8_amended (canOv : FunctionDefn → FunctionDefn → Bool)
    (overrides : List FnId) (st : OMState)
    (hco : ∀ a b, canOv a b = false) :
    ((overrideMethods canOv true overrides st).diags =
      st.diags ++ ((st.table.filter (fun m =>
        (st.store m).fname == (st.store (overrides.headD 0)).fname)).map
          DiagB.hiddenMember)) ∧
    (∀ (canOv2 : FunctionDefn → FunctionDefn → Bool) (m : FnId),
      DiagB.hiddenMember m ∈ (overrideMethods canOv2 false overrides st).diags →
      DiagB.hiddenMember m ∈ st.diags) := by
  constructor
  · rw [overrideMethods, om_fold_nohit_true hco]
    simp only
    rw [range_filterMap_slotHit]
  · intro canOv2 m hm
    exact om_fold_no_hidden canOv2 _ overrides _ _ m hm

theorem c8_amended_witness :
    ((overrideMethods (fun _ _ => false) true [1] ⟨[0], c8store, []⟩).diags =
      [] ++ ((([0] : List FnId).filter (fun m =>
        (c8store m).fname == (c8store ((([1] : List FnId)).headD 0)).fname)).map
          DiagB.hiddenMember)) ∧
    (∀ (canOv2 : FunctionDefn → FunctionDefn → Bool) (m : FnId),
      DiagB.hiddenMember m ∈
        (overrideMethods canOv2 false [1] ⟨[0], c8store, []⟩).diags →
      DiagB.hiddenMember m ∈ ([] : List DiagB)) :=
  c8_amended (fun _ _ => false) [1] ⟨[0], c8store, []⟩ (fun _ _ => rfl)

theorem itabRequiredLoop_count (s : Store) :
    ∀ l : List (TypeId × List FnId),
    (itabRequiredLoop s l).countP isUnimplDiag ≤ 1 := by
  intro l
  induction l with
  | nil => simp [itabRequiredLoop]
  | cons it rest ih =>
    rw [itabRequiredLoop]
    by_cases hne : (!(it.2.filter (isOffender s)).isEmpty) = true
    · rw [if_pos hne]
      simp [List.countP, List.countP.go, isUnimplDiag]
    · rw [if_neg hne]
      exact ih


/-- C10: for a non-abstract composite type whose instance method table still
contains a method with no body and no extern/intrinsic/undef marker, the
completeness check stops after the vtable half — diagnosing for structs and
classes, silently skipping for interface/protocol targets — and emits no
unimplemented-interface diagnostic for any itable; and in every run at most
one itable is diagnosed even when several are incomplete. -/
theorem c10_completeness_check (targetAbstract : Bool) (tcls : TypeClass)
    (st : OvState) (habs : targetAbstract = false)
    (hoff : (!(st.table.filter (isOffender st.store)).isEmpty) = true) :
    ((tcls = .structTC ∨ tcls = .classTC) →
      (checkForRequiredMethods targetAbstract tcls st).diags =
        st.diags ++ [.concreteLacksMethods (st.table.filter (isOffender st.store))]) ∧
    ((tcls ≠ .structTC ∧ tcls ≠ .classTC) →
      (checkForRequiredMethods targetAbstract tcls st).diags = st.diags) ∧
    (∀ i ms, DiagB.unimplementedInterface i ms ∈
        (checkForRequiredMethods targetAbstract tcls st).diags →
      DiagB.unimplementedInterface i ms ∈ st.diags) ∧
    (∀ st2 : OvState,
      (checkForRequiredMethods false tcls st2).diags.countP isUnimplDiag ≤
        st2.diags.countP isUnimplDiag + 1) := by
  subst habs
  have hred : checkForRequiredMethods false tcls st =
      (if (tcls == TypeClass.structTC || (tcls == TypeClass.classTC && !false)) = true then
        { st with diags := st.diags ++
          [DiagB.concreteLacksMethods (st.table.filter (isOffender st.store))] }
       else st) := by
    simp only [checkForRequiredMethods, Bool.false_eq_true, if_false, hoff, if_true]
  refine ⟨?_, ?_, ?_, ?_⟩
  · intro htc
    rw [hred]
    have hc : (tcls == TypeClass.structTC || (tcls == TypeClass.classTC && !false)) = true := by
      rcases htc with rfl | rfl <;> rfl
    rw [if_pos hc]
  · intro hne
    rw [hred]
    have hc : (tcls == TypeClass.structTC || (tcls == TypeClass.classTC && !false)) = false := by
      cases tcls <;> simp_all
    rw [if_neg (by simp only [hc]; decide)]
  · intro i ms hm
    rw [hred] at hm
    by_cases hc : (tcls == TypeClass.structTC || (tcls == TypeClass.classTC && !false)) = true
    · rw [if_pos hc] at hm
      simp only at hm
      rcases List.mem_append.mp hm with h | h
      · exact h
      · simp at h
    · rw [if_neg hc] at hm
      exact hm
  · intro st2
    by_cases h2 : (!(st2.table.filter (isOffender st2.store)).isEmpty) = true
    · simp only [checkForRequiredMethods, Bool.false_eq_true, if_false, h2, if_true]
      by_cases hc : (tcls == TypeClass.structTC || (tcls == TypeClass.classTC && !false)) = true
      · rw [if_pos hc]
        simp only [List.countP_append, List.countP_singleton, isUnimplDiag]
        simp
      · rw [if_neg hc]
        simp
    · simp only [checkForRequiredMethods, Bool.false_eq_true, if_false, if_neg h2]
      simp only [List.countP_append]
      have := itabRequiredLoop_count st2.store st2.itables
      omega

theorem c10_completeness_check_witness :
    (((TypeClass.classTC) = TypeClass.structTC ∨ (TypeClass.classTC) = TypeClass.classTC) →
      (checkForRequiredMethods false .classTC ⟨[0], [(5, [0])], c8store, []⟩).diags =
        [] ++ [.concreteLacksMethods (([0] : List FnId).filter (isOffender c8store))]) ∧
    (((TypeClass.classTC) ≠ TypeClass.structTC ∧ (TypeClass.classTC) ≠ TypeClass.classTC) →
      (checkForRequiredMethods false .classTC ⟨[0], [(5, [0])], c8store, []⟩).diags = []) ∧
    (∀ i ms, DiagB.unimplementedInterface i ms ∈
        (checkForRequiredMethods false .classTC ⟨[0], [(5, [0])], c8store, []⟩).diags →
      DiagB.unimplementedInterface i ms ∈ ([] : List DiagB)) ∧
    (∀ st2 : OvState,
      (checkForRequiredMethods false .classTC st2).diags.countP isUnimplDiag ≤
        st2.diags.countP isUnimplDiag + 1) :=
  c10_completeness_check false .classTC ⟨[0], [(5, [0])], c8store, []⟩ rfl (by decide)

theorem reaches_fuel_mono (s : Store) :
    ∀ n k f g, n ≤ k → reaches s n f g = true → reaches s k f g = true := by
  intro n
  induction n with
  | zero => intro k f g _ h; exact absurd h (by simp [reaches])
  | succ n ih =>
    intro k f g hnk h
    rcases k with _ | k
    · omega
    · rw [reaches] at h ⊢
      rcases Bool.or_eq_true_iff.mp h with h1 | h2
      · exact Bool.or_eq_true_iff.mpr (Or.inl h1)
      · apply Bool.or_eq_true_iff.mpr
        right
        rw [List.any_eq_true] at h2 ⊢
        obtain ⟨x, hx, hr⟩ := h2
        exact ⟨x, hx, ih k x g (by omega) hr⟩

theorem reaches_trans (s : Store) :
    ∀ n k f m g, reaches s n f m = true → reaches s k m g = true →
      reaches s (n + k) f g = true := by
  intro n
  induction n with
  | zero => intro k f m g h _; exact absurd h (by simp [reaches])
  | succ n ih =>
    intro k f m g h1 h2
    rw [reaches] at h1
    have hgoal : n + 1 + k = (n + k) + 1 := by omega
    rw [hgoal, reaches]
    rcases Bool.or_eq_true_iff.mp h1 with ha | hb
    · apply Bool.or_eq_true_iff.mpr
      right
      rw [List.any_eq_true]
      refine ⟨m, by simpa using ha, ?_⟩
      exact reaches_fuel_mono s k (n + k) m g (by omega) h2
    · apply Bool.or_eq_true_iff.mpr
      right
      rw [List.any_eq_true] at hb ⊢
      obtain ⟨x, hx, hr⟩ := hb
      exact ⟨x, hx, ih k x m g hr h2⟩

theorem overrides_trans {s : Store} {f m g : FnId}
    (h1 : Overrides s f m) (h2 : Overrides s m g) : Overrides s f g := by
  obtain ⟨n, hn⟩ := h1
  obtain ⟨k, hk⟩ := h2
  exact ⟨n + k, reaches_trans s n k f m g hn hk⟩

theorem slotsInv_refl (t : List FnId) (s : Store) : SlotsInv t t s :=
  ⟨rfl, fun _ _ h => Or.inl h⟩

theorem slotsInv_mono {t0 t : List FnId} {s s' : Store}
    (h : SlotsInv t0 t s) (hle : StoreLE s s') : SlotsInv t0 t s' := by
  refine ⟨h.1, fun j a hj => ?_⟩
  rcases h.2 j a hj with h1 | ⟨b, hb, hov⟩
  · exact Or.inl h1
  · exact Or.inr ⟨b, hb, overrides_mono hle hov⟩

theorem slotsInv_trans {t0 t1 t2 : List FnId} {s1 s2 : Store}
    (h1 : SlotsInv t0 t1 s1) (h2 : SlotsInv t1 t2 s2) (hle : StoreLE s1 s2) :
    SlotsInv t0 t2 s2 := by
  refine ⟨h2.1.trans h1.1, fun j a hj => ?_⟩
  rcases h2.2 j a hj with he | ⟨b, hb, hov⟩
  · rcases h1.2 j a he with he2 | ⟨c, hc, hov2⟩
    · exact Or.inl he2
    · exact Or.inr ⟨c, hc, overrides_mono hle hov2⟩
  · rcases h1.2 j b hb with he2 | ⟨c, hc, hov2⟩
    · exact Or.inr ⟨b, he2, hov⟩
    · exact Or.inr ⟨c, hc, overrides_trans hov (overrides_mono hle hov2)⟩

theorem slotsInv_tableLE {t0 t : List FnId} {s : Store} (h : SlotsInv t0 t s) :
    TableLE t0 t s :=
  ⟨le_of_eq h.1.symm, fun j a _ hj => h.2 j a hj⟩

theorem tableLE_refl (t : List FnId) (s : Store) : TableLE t t s :=
  ⟨le_refl _, fun _ _ _ h => Or.inl h⟩

theorem tableLE_trans {t0 t1 t2 : List FnId} {s1 s2 : Store}
    (h1 : TableLE t0 t1 s1) (h2 : TableLE t1 t2 s2) (hle : StoreLE s1 s2) :
    TableLE t0 t2 s2 := by
  refine ⟨h1.1.trans h2.1, fun j a hj0 hja => ?_⟩
  rcases h2.2 j a (lt_of_lt_of_le hj0 h1.1) hja with he | ⟨b, hb, hov⟩
  · rcases h1.2 j a hj0 he with he2 | ⟨c, hc, hov2⟩
    · exact Or.inl he2
    · exact Or.inr ⟨c, hc, overrides_mono hle hov2⟩
  · rcases h1.2 j b hj0 hb with he2 | ⟨c, hc, hov2⟩
    · exact Or.inr ⟨b, he2, hov⟩
    · exact Or.inr ⟨c, hc, overrides_trans hov (overrides_mono hle hov2)⟩

theorem ovEvolves_refl (w : TypeWorld) (st : OvState) : OvEvolves w st st :=
  ⟨storeLE_refl _, tableLE_refl _ _, fun h => h⟩

theorem ovEvolves_trans {w : TypeWorld} {s1 s2 s3 : OvState}
    (h1 : OvEvolves w s1 s2) (h2 : OvEvolves w s2 s3) : OvEvolves w s1 s3 :=
  ⟨storeLE_trans h1.1 h2.1, tableLE_trans h1.2.1 h2.2.1 h2.1,
    fun h => h2.2.2 (h1.2.2 h)⟩


theorem omStep_slots (canOv : FunctionDefn → FunctionDefn → Bool)
    (canHide : Bool) (name : String) (overrides : List FnId)
    (st : OMState) (i : Nat) :
    StoreLE st.store (overrideMethodsStep canOv canHide name overrides st i).store ∧
    SlotsInv st.table (overrideMethodsStep canOv canHide name overrides st i).table
      (overrideMethodsStep canOv canHide name overrides st i).store := by
  rcases hi : st.table[i]? with _ | m
  · have hstep : overrideMethodsStep canOv canHide name overrides st i = st := by
      unfold overrideMethodsStep
      rw [hi]
    rw [hstep]
    exact ⟨storeLE_refl _, slotsInv_refl _ _⟩
  · by_cases hname : ((st.store m).fname == name) = true
    · rcases hfo : findOverride canOv st.store m overrides with _ | nm
      · have hstep : overrideMethodsStep canOv canHide name overrides st i =
            (if canHide then { st with diags := st.diags ++ [.hiddenMember m] }
             else st) := by
          unfold overrideMethodsStep
          rw [hi]
          simp only [hname, if_true, hfo]
        rw [hstep]
        cases canHide
        · simp only [Bool.false_eq_true, if_false]
          exact ⟨storeLE_refl _, slotsInv_refl _ _⟩
        · simp only [if_true]
          exact ⟨storeLE_refl _, slotsInv_refl _ _⟩
      · have hstep : overrideMethodsStep canOv canHide name overrides st i =
            ⟨st.table.set i nm,
             insertOverridden
               (if canHide && decide ((st.store nm).dispatchIndex < 0) then
                  setDispatch st.store nm (Int.ofNat i)
                else st.store) nm m,
             if ((if canHide && decide ((st.store nm).dispatchIndex < 0) then
                    setDispatch st.store nm (Int.ofNat i)
                  else st.store) m).hasBody &&
                !((if canHide && decide ((st.store nm).dispatchIndex < 0) then
                     setDispatch st.store nm (Int.ofNat i)
                   else st.store) nm).isOverrideDecl then
               st.diags ++ [.overrideKeyword nm m]
             else st.diags⟩ := by
          unfold overrideMethodsStep
          rw [hi]
          simp only [hname, if_true, hfo]
        rw [hstep]
        have hle2 : StoreLE st.store
            (if canHide && decide ((st.store nm).dispatchIndex < 0) then
               setDispatch st.store nm (Int.ofNat i)
             else st.store) := by
          split_ifs
          · exact setDispatch_le _ _ _
          · exact storeLE_refl _
        have hlef : StoreLE st.store
            (insertOverridden
              (if canHide && decide ((st.store nm).dispatchIndex < 0) then
                 setDispatch st.store nm (Int.ofNat i)
               else st.store) nm m) :=
          storeLE_trans hle2 (insertOverridden_le _ _ _)
        refine ⟨hlef, List.length_set st.table i nm, ?_⟩
        intro j a hj
        rw [List.getElem?_set] at hj
        by_cases hij : i = j
        · rw [if_pos hij] at hj
          obtain ⟨hlt, _⟩ := List.getElem?_eq_some.mp hi
          rw [if_pos hlt] at hj
          have hanm : nm = a := Option.some.inj hj
          subst hij
          refine Or.inr ⟨m, hi, ?_⟩
          rw [← hanm]
          exact overrides_of_mem (insertOverridden_mem _ _ _)
        · rw [if_neg hij] at hj
          exact Or.inl hj
    · have hstep : overrideMethodsStep canOv canHide name overrides st i = st := by
        unfold overrideMethodsStep
        rw [hi]
        simp only [hname, Bool.false_eq_true, if_false]
      rw [hstep]
      exact ⟨storeLE_refl _, slotsInv_refl _ _⟩

theorem opaStep_slots (canOv : FunctionDefn → FunctionDefn → Bool)
    (canHide : Bool) (name propName : String) (accessors : List FnId)
    (st : OMState) (i : Nat) :
    StoreLE st.store
      (overridePropAccStep canOv canHide name propName accessors st i).store ∧
    SlotsInv st.table
      (overridePropAccStep canOv canHide name propName accessors st i).table
      (overridePropAccStep canOv canHide name propName accessors st i).store := by
  rcases hi : st.table[i]? with _ | m
  · have hstep : overridePropAccStep canOv canHide name propName accessors st i
        = st := by
      unfold overridePropAccStep
      rw [hi]
    rw [hstep]
    exact ⟨storeLE_refl _, slotsInv_refl _ _⟩
  · rcases hp : (st.store m).parentProp with _ | pname
    · have hstep : overridePropAccStep canOv canHide name propName accessors st i
          = st := by
        unfold overridePropAccStep
        rw [hi]
        simp only [hp]
      rw [hstep]
      exact ⟨storeLE_refl _, slotsInv_refl _ _⟩
    · by_cases hname : ((st.store m).fname == name && pname == propName) = true
      · rcases hfo : findOverride canOv st.store m accessors with _ | na
        · have hstep : overridePropAccStep canOv canHide name propName accessors
              st i =
              { st with diags := st.diags ++ [.invalidAccessorOverride m] } := by
            unfold overridePropAccStep
            rw [hi]
            simp only [hp, hname, if_true, hfo]
          rw [hstep]
          exact ⟨storeLE_refl _, slotsInv_refl _ _⟩
        · have hstep : overridePropAccStep canOv canHide name propName accessors
              st i =
              ⟨st.table.set i na,
               insertOverridden
                 (if canHide && decide ((st.store na).dispatchIndex < 0) then
                    setDispatch st.store na (Int.ofNat i)
                  else st.store) na m,
               st.diags⟩ := by
            unfold overridePropAccStep
            rw [hi]
            simp only [hp, hname, if_true, hfo]
          rw [hstep]
          have hle2 : StoreLE st.store
              (if canHide && decide ((st.store na).dispatchIndex < 0) then
                 setDispatch st.store na (Int.ofNat i)
               else st.store) := by
            split_ifs
            · exact setDispatch_le _ _ _
            · exact storeLE_refl _
          have hlef : StoreLE st.store
              (insertOverridden
                (if canHide && decide ((st.store na).dispatchIndex < 0) then
                   setDispatch st.store na (Int.ofNat i)
                 else st.store) na m) :=
            storeLE_trans hle2 (insertOverridden_le _ _ _)
          refine ⟨hlef, List.length_set st.table i na, ?_⟩
          intro j a hj
          rw [List.getElem?_set] at hj
          by_cases hij : i = j
          · rw [if_pos hij] at hj
            obtain ⟨hlt, _⟩ := List.getElem?_eq_some.mp hi
            rw [if_pos hlt] at hj
            have hana : na = a := Option.some.inj hj
            subst hij
            refine Or.inr ⟨m, hi, ?_⟩
            rw [← hana]
            exact overrides_of_mem (insertOverridden_mem _ _ _)
          · rw [if_neg hij] at hj
            exact Or.inl hj
      · have hstep : overridePropAccStep canOv canHide name propName accessors
            st i = st := by
          unfold overridePropAccStep
          rw [hi]
          simp only [hp, hname, Bool.false_eq_true, if_false]
        rw [hstep]
        exact ⟨storeLE_refl _, slotsInv_refl _ _⟩

theorem om_fold_slots (canOv : FunctionDefn → FunctionDefn → Bool)
    (canHide : Bool) (name : String) (overrides : List FnId) :
    ∀ (idxs : List Nat) (st : OMState),
    StoreLE st.store
      ((idxs.foldl (overrideMethodsStep canOv canHide name overrides) st)).store ∧
    SlotsInv st.table
      (idxs.foldl (overrideMethodsStep canOv canHide name overrides) st).table
      (idxs.foldl (overrideMethodsStep canOv canHide name overrides) st).store := by
  intro idxs
  induction idxs with
  | nil => intro st; exact ⟨storeLE_refl _, slotsInv_refl _ _⟩
  | cons i rest ih =>
    intro st
    rw [List.foldl_cons]
    obtain ⟨hle1, hinv1⟩ := omStep_slots canOv canHide name overrides st i
    obtain ⟨hle2, hinv2⟩ := ih (overrideMethodsStep canOv canHide name overrides st i)
    exact ⟨storeLE_trans hle1 hle2, slotsInv_trans hinv1 hinv2 hle2⟩

theorem opa_fold_slots (canOv : FunctionDefn → FunctionDefn → Bool)
    (canHide : Bool) (name propName : String) (accessors : List FnId) :
    ∀ (idxs : List Nat) (st : OMState),
    StoreLE st.store
      ((idxs.foldl
        (overridePropAccStep canOv canHide name propName accessors) st)).store ∧
    SlotsInv st.table
      (idxs.foldl
        (overridePropAccStep canOv canHide name propName accessors) st).table
      (idxs.foldl
        (overridePropAccStep canOv canHide name propName accessors) st).store := by
  intro idxs
  induction idxs with
  | nil => intro st; exact ⟨storeLE_refl _, slotsInv_refl _ _⟩
  | cons i rest ih =>
    intro st
    rw [List.foldl_cons]
    obtain ⟨hle1, hinv1⟩ := opaStep_slots canOv canHide name propName accessors st i
    obtain ⟨hle2, hinv2⟩ :=
      ih (overridePropAccStep canOv canHide name propName accessors st i)
    exact ⟨storeLE_trans hle1 hle2, slotsInv_trans hinv1 hinv2 hle2⟩

theorem overrideMethods_slots (canOv : FunctionDefn → FunctionDefn → Bool)
    (canHide : Bool) (overrides : List FnId) (st : OMState) :
    StoreLE st.store (overrideMethods canOv canHide overrides st).store ∧
    SlotsInv st.table (overrideMethods canOv canHide overrides st).table
      (overrideMethods canOv canHide overrides st).store := by
  unfold overrideMethods
  exact om_fold_slots canOv canHide _ overrides (List.range st.table.length) st

theorem overridePropertyAccessors_slots
    (canOv : FunctionDefn → FunctionDefn → Bool) (canHide : Bool)
    (propName : String) (accessors : List FnId) (st : OMState) :
    StoreLE st.store
      (overridePropertyAccessors canOv canHide propName accessors st).store ∧
    SlotsInv st.table
      (overridePropertyAccessors canOv canHide propName accessors st).table
      (overridePropertyAccessors canOv canHide propName accessors st).store := by
  unfold overridePropertyAccessors
  exact opa_fold_slots canOv canHide _ propName accessors
    (List.range st.table.length) st

theorem diags_ev (w : TypeWorld) (st : OvState) (d : List DiagB) :
    OvEvolves w st { st with diags := d } :=
  ⟨storeLE_refl _, tableLE_refl _ _, fun h it hit => h it hit⟩

theorem tableAppend_ev (w : TypeWorld) (st : OvState) (f g : FnId) (i : Int) :
    OvEvolves w st
      { st with store := setDispatch st.store g i, table := st.table ++ [f] } := by
  refine ⟨setDispatch_le _ _ _, ⟨?_, ?_⟩, ?_⟩
  · simp
  · intro j a hj hja
    rw [List.getElem?_append_left hj] at hja
    exact Or.inl hja
  · intro h it hit
    exact slotsInv_mono (h it hit) (setDispatch_le _ _ _)

theorem pushFn_ev (w : TypeWorld) (c : Bool) (st : OvState) (f : FnId) :
    OvEvolves w st
      (if c then
        { st with
          store := setDispatch st.store f (Int.ofNat st.table.length),
          table := st.table ++ [f] }
       else st) := by
  split_ifs
  · exact tableAppend_ev w st f f (Int.ofNat st.table.length)
  · exact ovEvolves_refl w st

theorem omOnTable_ev (w : TypeWorld) (canOv : FunctionDefn → FunctionDefn → Bool)
    (canHide : Bool) (ms : List FnId) (st : OvState) :
    OvEvolves w st (omOnTable canOv canHide ms st) := by
  obtain ⟨hle, hinv⟩ :=
    overrideMethods_slots canOv canHide ms ⟨st.table, st.store, st.diags⟩
  exact ⟨hle, slotsInv_tableLE hinv, fun h it hit => slotsInv_mono (h it hit) hle⟩

theorem opaOnTable_ev (w : TypeWorld)
    (canOv : FunctionDefn → FunctionDefn → Bool) (canHide : Bool)
    (propName : String) (accessors : List FnId) (st : OvState) :
    OvEvolves w st (opaOnTable canOv canHide propName accessors st) := by
  obtain ⟨hle, hinv⟩ := overridePropertyAccessors_slots canOv canHide propName
    accessors ⟨st.table, st.store, st.diags⟩
  exact ⟨hle, slotsInv_tableLE hinv, fun h it hit => slotsInv_mono (h it hit) hle⟩

theorem omOnItables_eq (canOv : FunctionDefn → FunctionDefn → Bool)
    (overrides : List FnId) (st : OvState) :
    omOnItables canOv overrides st =
      (let r := st.itables.foldl (itStep canOv overrides) ([], st.store, st.diags)
       { st with itables := r.1, store := r.2.1, diags := r.2.2 }) := rfl

theorem opaOnItables_eq (canOv : FunctionDefn → FunctionDefn → Bool)
    (propName : String) (accessors : List FnId) (st : OvState) :
    opaOnItables canOv propName accessors st =
      (let r := st.itables.foldl (opaItStep canOv propName accessors)
        ([], st.store, st.diags)
       { st with itables := r.1, store := r.2.1, diags := r.2.2 }) := rfl

theorem itStep_fold_store (canOv : FunctionDefn → FunctionDefn → Bool)
    (overrides : List FnId) :
    ∀ (its : List (TypeId × List FnId))
      (acc : List (TypeId × List FnId) × Store × List DiagB),
    StoreLE acc.2.1 (its.foldl (itStep canOv overrides) acc).2.1 := by
  intro its
  induction its with
  | nil => intro acc; exact storeLE_refl _
  | cons it rest ih =>
    intro acc
    rw [List.foldl_cons]
    obtain ⟨hle1, _⟩ :=
      overrideMethods_slots canOv false overrides ⟨it.2, acc.2.1, acc.2.2⟩
    exact storeLE_trans hle1 (ih (itStep canOv overrides acc it))

theorem itStep_fold_itabs (canOv : FunctionDefn → FunctionDefn → Bool)
    (overrides : List FnId) (w : TypeWorld) :
    ∀ (its : List (TypeId × List FnId))
      (acc : List (TypeId × List FnId) × Store × List DiagB),
    (∀ it ∈ acc.1, SlotsInv ((w it.1).instanceMethods) it.2 acc.2.1) →
    (∀ it ∈ its, SlotsInv ((w it.1).instanceMethods) it.2 acc.2.1) →
    ∀ it ∈ (its.foldl (itStep canOv overrides) acc).1,
      SlotsInv ((w it.1).instanceMethods) it.2
        (its.foldl (itStep canOv overrides) acc).2.1 := by
  intro its
  induction its with
  | nil => intro acc hacc _; exact hacc
  | cons it rest ih =>
    intro acc hacc hits
    rw [List.foldl_cons]
    obtain ⟨hle1, hinv1⟩ :=
      overrideMethods_slots canOv false overrides ⟨it.2, acc.2.1, acc.2.2⟩
    refine ih (itStep canOv overrides acc it) ?_ ?_
    · intro x hx
      rcases List.mem_append.mp hx with hold | hnew
      · exact slotsInv_mono (hacc x hold) hle1
      · rw [List.mem_singleton] at hnew
        subst hnew
        exact slotsInv_trans (hits it (List.mem_cons_self it rest)) hinv1 hle1
    · intro x hx
      exact slotsInv_mono (hits x (List.mem_cons_of_mem it hx)) hle1

theorem omOnItables_ev (w : TypeWorld)
    (canOv : FunctionDefn → FunctionDefn → Bool) (overrides : List FnId)
    (st : OvState) :
    OvEvolves w st (omOnItables canOv overrides st) := by
  refine ⟨?_, ?_, ?_⟩
  · exact itStep_fold_store canOv overrides st.itables ([], st.store, st.diags)
  · exact tableLE_refl _ _
  · intro h it hit
    refine itStep_fold_itabs canOv overrides w st.itables
      ([], st.store, st.diags) ?_ ?_ it hit
    · intro x hx
      exact absurd hx (List.not_mem_nil x)
    · intro x hx
      exact h x hx

theorem opaItStep_fold_store (canOv : FunctionDefn → FunctionDefn → Bool)
    (propName : String) (accessors : List FnId) :
    ∀ (its : List (TypeId × List FnId))
      (acc : List (TypeId × List FnId) × Store × List DiagB),
    StoreLE acc.2.1 (its.foldl (opaItStep canOv propName accessors) acc).2.1 := by
  intro its
  induction its with
  | nil => intro acc; exact storeLE_refl _
  | cons it rest ih =>
    intro acc
    rw [List.foldl_cons]
    obtain ⟨hle1, _⟩ := overridePropertyAccessors_slots canOv false propName
      accessors ⟨it.2, acc.2.1, acc.2.2⟩
    exact storeLE_trans hle1 (ih (opaItStep canOv propName accessors acc it))

theorem opaItStep_fold_itabs (canOv : FunctionDefn → FunctionDefn → Bool)
    (propName : String) (accessors : List FnId) (w : TypeWorld) :
    ∀ (its : List (TypeId × List FnId))
      (acc : List (TypeId × List FnId) × Store × List DiagB),
    (∀ it ∈ acc.1, SlotsInv ((w it.1).instanceMethods) it.2 acc.2.1) →
    (∀ it ∈ its, SlotsInv ((w it.1).instanceMethods) it.2 acc.2.1) →
    ∀ it ∈ (its.foldl (opaItStep canOv propName accessors) acc).1,
      SlotsInv ((w it.1).instanceMethods) it.2
        (its.foldl (opaItStep canOv propName accessors) acc).2.1 := by
  intro its
  induction its with
  | nil => intro acc hacc _; exact hacc
  | cons it rest ih =>
    intro acc hacc hits
    rw [List.foldl_cons]
    obtain ⟨hle1, hinv1⟩ := overridePropertyAccessors_slots canOv false propName
      accessors ⟨it.2, acc.2.1, acc.2.2⟩
    refine ih (opaItStep canOv propName accessors acc it) ?_ ?_
    · intro x hx
      rcases List.mem_append.mp hx with hold | hnew
      · exact slotsInv_mono (hacc x hold) hle1
      · rw [List.mem_singleton] at hnew
        subst hnew
        exact slotsInv_trans (hits it (List.mem_cons_self it rest)) hinv1 hle1
    · intro x hx
      exact slotsInv_mono (hits x (List.mem_cons_of_mem it hx)) hle1

theorem opaOnItables_ev (w : TypeWorld)
    (canOv : FunctionDefn → FunctionDefn → Bool) (propName : String)
    (accessors : List FnId) (st : OvState) :
    OvEvolves w st (opaOnItables canOv propName accessors st) := by
  refine ⟨?_, ?_, ?_⟩
  · exact opaItStep_fold_store canOv propName accessors st.itables
      ([], st.store, st.diags)
  · exact tableLE_refl _ _
  · intro h it hit
    refine opaItStep_fold_itabs canOv propName accessors w st.itables
      ([], st.store, st.diags) ?_ ?_ it hit
    · intro x hx
      exact absurd hx (List.not_mem_nil x)
    · intro x hx
      exact h x hx

theorem peBlock1_ev (w : TypeWorld)
    (canOv sameSig : FunctionDefn → FunctionDefn → Bool) (st : OvState)
    (ms : List FnId) :
    OvEvolves w st (peBlock1 canOv sameSig st ms) := by
  simp only [peBlock1]
  split_ifs
  · exact ovEvolves_refl w st
  · exact ovEvolves_trans (diags_ev w st _)
      (ovEvolves_trans (omOnTable_ev w canOv true ms _) (omOnItables_ev w canOv ms _))

theorem peBlock2_ev (w : TypeWorld)
    (canOv sameSig : FunctionDefn → FunctionDefn → Bool) (ps : PropStore)
    (st : OvState) (acc : List FnId) (lastProp : Option PropId) :
    OvEvolves w st (peBlock2 canOv sameSig ps st acc lastProp) := by
  simp only [peBlock2]
  split_ifs
  · exact ovEvolves_refl w st
  · rcases lastProp with _ | p
    · exact ovEvolves_refl w st
    · exact ovEvolves_trans (diags_ev w st _)
        (ovEvolves_trans (opaOnTable_ev w canOv true ((ps p).propName) acc _)
          (opaOnItables_ev w canOv ((ps p).propName) acc _))

theorem processEntry_eq (canOv sameSig : FunctionDefn → FunctionDefn → Bool)
    (ps : PropStore) (st : OvState) (e : Entry) :
    processEntry canOv sameSig ps st e =
      peBlock2 canOv sameSig ps
        (peBlock2 canOv sameSig ps
          (peBlock1 canOv sameSig st (collectEntry st.store ps e.defns).methods)
          (collectEntry st.store ps e.defns).getters
          (collectEntry st.store ps e.defns).lastProp)
        (collectEntry st.store ps e.defns).setters
        (collectEntry st.store ps e.defns).lastProp := rfl

theorem processEntry_ev (w : TypeWorld)
    (canOv sameSig : FunctionDefn → FunctionDefn → Bool) (ps : PropStore)
    (st : OvState) (e : Entry) :
    OvEvolves w st (processEntry canOv sameSig ps st e) := by
  rw [processEntry_eq]
  exact ovEvolves_trans (peBlock1_ev w canOv sameSig st _)
    (ovEvolves_trans (peBlock2_ev w canOv sameSig ps _ _ _)
      (peBlock2_ev w canOv sameSig ps _ _ _))

theorem overrideMembers_ev (w : TypeWorld)
    (canOv sameSig : FunctionDefn → FunctionDefn → Bool) (ps : PropStore) :
    ∀ (entries : List Entry) (st : OvState),
    OvEvolves w st (overrideMembers canOv sameSig ps entries st) := by
  intro entries
  induction entries with
  | nil => intro st; exact ovEvolves_refl w st
  | cons e rest ih =>
    intro st
    unfold overrideMembers
    rw [List.foldl_cons]
    have hrest := ih (processEntry canOv sameSig ps st e)
    unfold overrideMembers at hrest
    exact ovEvolves_trans (processEntry_ev w canOv sameSig ps st e) hrest

theorem anmStep_ev (w : TypeWorld) (ps : PropStore) (st : OvState)
    (de : MemberRef) :
    OvEvolves w st (anmStep ps st de) := by
  rcases de with f | p | _
  · by_cases h1 : ((st.store f).storage == SClass.instSC &&
        (st.store f).isSingularFn) = true
    · simp only [anmStep, h1, if_true]
      have hmid : OvEvolves w st
          (if (st.store f).isUndefined && (st.store f).overridden.isEmpty then
            if !(st.store f).isCtor || (st.store f).arity != 0 then
              { st with diags := st.diags ++ [.undefNoOverride f] }
            else st
          else st) := by
        split_ifs
        · exact diags_ev w st _
        · exact ovEvolves_refl w st
        · exact ovEvolves_refl w st
      exact ovEvolves_trans hmid (pushFn_ev w _ _ f)
    · simp only [anmStep, h1, Bool.false_eq_true, if_false]
      exact ovEvolves_refl w st
  · by_cases h1 : ((ps p).pstorage == SClass.instSC && (ps p).pSingular) = true
    · simp only [anmStep, h1, if_true]
      rcases hg : (ps p).getter with _ | g <;> rcases ht : (ps p).setter with _ | t <;>
        simp only [hg, ht]
      · exact ovEvolves_refl w st
      · exact pushFn_ev w _ _ t
      · exact pushFn_ev w _ _ g
      · exact ovEvolves_trans (pushFn_ev w _ _ g) (pushFn_ev w _ _ t)
    · simp only [anmStep, h1, Bool.false_eq_true, if_false]
      exact ovEvolves_refl w st
  · exact ovEvolves_refl w st

theorem addNewMethods_eq (ps : PropStore) (memberList : List MemberRef)
    (st : OvState) :
    addNewMethods ps memberList st = memberList.foldl (anmStep ps) st := rfl

theorem addNewMethods_ev (w : TypeWorld) (ps : PropStore) :
    ∀ (memberList : List MemberRef) (st : OvState),
    OvEvolves w st (addNewMethods ps memberList st) := by
  intro memberList
  induction memberList with
  | nil => intro st; exact ovEvolves_refl w st
  | cons de rest ih =>
    intro st
    rw [addNewMethods_eq, List.foldl_cons]
    have hrest := ih (anmStep ps st de)
    rw [addNewMethods_eq] at hrest
    exact ovEvolves_trans (anmStep_ev w ps st de) hrest

theorem cfr_ev (w : TypeWorld) (targetAbstract : Bool) (tcls : TypeClass)
    (st : OvState) :
    OvEvolves w st (checkForRequiredMethods targetAbstract tcls st) := by
  simp only [checkForRequiredMethods]
  split_ifs
  · exact ovEvolves_refl w st
  · exact diags_ev w st _
  · exact ovEvolves_refl w st
  · exact diags_ev w st _

theorem createInterfaceTables_eq (w : TypeWorld) (fuel : Nat) (A : TypeId)
    (st : OvState) :
    createInterfaceTables w fuel A st =
      (interfaceTypesOf w fuel A).foldl (citStep w fuel A) st := rfl

theorem citStep_eq (w : TypeWorld) (fuel : Nat) (A : TypeId) (st : OvState)
    (itype : TypeId) :
    citStep w fuel A st itype =
      { st with itables := st.itables ++ [(itype, citMethods w fuel A itype)] } := rfl

theorem citFold_chars (w : TypeWorld) (fuel : Nat) (A : TypeId) :
    ∀ (l : List TypeId) (st : OvState),
    (l.foldl (citStep w fuel A) st).store = st.store ∧
    (l.foldl (citStep w fuel A) st).table = st.table ∧
    ∀ it ∈ (l.foldl (citStep w fuel A) st).itables,
      it ∈ st.itables ∨ it.2 = citMethods w fuel A it.1 := by
  intro l
  induction l with
  | nil =>
    intro st
    exact ⟨rfl, rfl, fun it hit => Or.inl hit⟩
  | cons itype rest ih =>
    intro st
    rw [List.foldl_cons, citStep_eq]
    obtain ⟨hs, ht, hm⟩ :=
      ih { st with itables := st.itables ++ [(itype, citMethods w fuel A itype)] }
    refine ⟨hs, ht, ?_⟩
    intro it hit
    rcases hm it hit with hold | hnew
    · rcases List.mem_append.mp hold with h1 | h2
      · exact Or.inl h1
      · rw [List.mem_singleton] at h2
        subst h2
        exact Or.inr rfl
    · exact Or.inr hnew

theorem copyBaseClassMethods_chars (w : TypeWorld) (A : TypeId) (st : OvState) :
    (copyBaseClassMethods w A st).store = st.store ∧
    (copyBaseClassMethods w A st).itables = st.itables := by
  rcases hsrc : copyBaseSource w A with _ | b <;>
    simp [copyBaseClassMethods, hsrc]

/-- C2: after the Overloading pass every interface table (I, tbl) of the
analyzed type has one slot per instance method of I, and slot j holds
I.instanceMethods[j] itself or a method recorded (through the
overriddenMethods sets) as overriding it — given that the invariant already
held for the itables present before the pass and for any base itable
returned by findBaseImplementationOf (the recursive hypothesis the code
establishes by analyzing bases first; that lookup is spec-modelled). -/
theorem c2_itable_invariant
    (canOv sameSig : FunctionDefn → FunctionDefn → Bool) (w : TypeWorld)
    (ps : PropStore) (fuel : Nat) (A : TypeId) (entries : List Entry)
    (memberList : List MemberRef) (targetAbstract : Bool) (s0 : Store)
    (hinit : ∀ it ∈ (w A).interfaces,
      SlotsInv ((w it.1).instanceMethods) it.2 s0)
    (hbase : ∀ itype tbl, findBaseImplementationOf w fuel A itype = some tbl →
      SlotsInv ((w itype).instanceMethods) tbl s0) :
    ∀ it ∈ (analyzeOverloadingSteps canOv sameSig w ps fuel A entries
        memberList targetAbstract s0).itables,
      SlotsInv ((w it.1).instanceMethods) it.2
        (analyzeOverloadingSteps canOv sameSig w ps fuel A entries memberList
          targetAbstract s0).store := by
  have heq : analyzeOverloadingSteps canOv sameSig w ps fuel A entries
      memberList targetAbstract s0 =
    checkForRequiredMethods targetAbstract ((w A).typeClass)
      (addNewMethods ps memberList
        (overrideMembers canOv sameSig ps entries
          (createInterfaceTables w fuel A
            (copyBaseClassMethods w A
              ⟨(w A).instanceMethods, (w A).interfaces, s0, []⟩)))) := rfl
  rw [heq]
  intro it hit
  have h2 : OvInv w (createInterfaceTables w fuel A
      (copyBaseClassMethods w A
        ⟨(w A).instanceMethods, (w A).interfaces, s0, []⟩)) := by
    have hc := copyBaseClassMethods_chars w A
      ⟨(w A).instanceMethods, (w A).interfaces, s0, []⟩
    rw [createInterfaceTables_eq]
    obtain ⟨hs, ht, hm⟩ := citFold_chars w fuel A (interfaceTypesOf w fuel A)
      (copyBaseClassMethods w A
        ⟨(w A).instanceMethods, (w A).interfaces, s0, []⟩)
    unfold OvInv
    intro x hx
    rw [hs, hc.1]
    rcases hm x hx with hold | hnew
    · rw [hc.2] at hold
      exact hinit x hold
    · rcases hfb : findBaseImplementationOf w fuel A x.1 with _ | tbl
      · have hx2 : x.2 = (w x.1).instanceMethods := by
          rw [hnew]
          simp only [citMethods, hfb]
        rw [hx2]
        exact slotsInv_refl _ _
      · have hx2 : x.2 = tbl := by
          rw [hnew]
          simp only [citMethods, hfb]
        rw [hx2]
        exact hbase x.1 tbl hfb
  have hev : OvEvolves w
      (createInterfaceTables w fuel A
        (copyBaseClassMethods w A
          ⟨(w A).instanceMethods, (w A).interfaces, s0, []⟩))
      (checkForRequiredMethods targetAbstract ((w A).typeClass)
        (addNewMethods ps memberList
          (overrideMembers canOv sameSig ps entries
            (createInterfaceTables w fuel A
              (copyBaseClassMethods w A
                ⟨(w A).instanceMethods, (w A).interfaces, s0, []⟩))))) :=
    ovEvolves_trans (overrideMembers_ev w canOv sameSig ps entries _)
      (ovEvolves_trans (addNewMethods_ev w ps memberList _)
        (cfr_ev w targetAbstract ((w A).typeClass) _))
  exact hev.2.2 h2 it hit

theorem c2_itable_invariant_witness :
    (∀ it ∈ (c2w 0).interfaces,
      SlotsInv ((c2w it.1).instanceMethods) it.2 c1store) ∧
    (∀ it ∈ (analyzeOverloadingSteps (fun _ _ => false) (fun _ _ => false)
        c2w c1ps 0 0 [] [] false c1store).itables,
      SlotsInv ((c2w it.1).instanceMethods) it.2
        (analyzeOverloadingSteps (fun _ _ => false) (fun _ _ => false)
          c2w c1ps 0 0 [] [] false c1store).store) :=
  ⟨by intro it hit; simp [c2w] at hit,
   c2_itable_invariant (fun _ _ => false) (fun _ _ => false) c2w c1ps 0 0 [] []
     false c1store
     (by intro it hit; simp [c2w] at hit)
     (by intro itype tbl h; simp [findBaseImplementationOf, findBaseImplAux] at h)⟩

/-- Counterexample to C1 as stated: a class with an empty primary base whose
own declaration list adds one new method ends the Overloading pass with
|A.instanceMethods| = 1 > 0 = |B.instanceMethods| (addNewMethods appends
methods beyond the base's table), so at index 0 — within the claimed range
i < |A.instanceMethods| — the slot is neither inherited from
B.instanceMethods[0] nor overriding it: no such base method exists. -/
theorem c1_counterexample :
    ¬ (∀ i < (analyzeOverloadingSteps (fun _ _ => false) (fun _ _ => false)
        c1w c1ps 1 0 c1entries c1members false c1store).table.length,
      inhOrOvB (analyzeOverloadingSteps (fun _ _ => false) (fun _ _ => false)
          c1w c1ps 1 0 c1entries c1members false c1store).store
        (analyzeOverloadingSteps (fun _ _ => false) (fun _ _ => false)
          c1w c1ps 1 0 c1entries c1members false c1store).table
        ((c1w 1).instanceMethods) i = true) := by
  decide

/-- C1 (amended): for a composite type A with primary base B and an instance
method table empty before the pass (the first Overloading run), every index
i < |B.instanceMethods| of A's table after the pass holds either the
identical function B.instanceMethods[i] (inherited) or a method recording
B.instanceMethods[i] among its (transitively) overridden methods; indices
beyond |B.instanceMethods| hold A's newly appended methods, for which the
claim as stated fails. -/
theorem c1_amended
    (canOv sameSig : FunctionDefn → FunctionDefn → Bool) (w : TypeWorld)
    (ps : PropStore) (fuel : Nat) (A B : TypeId) (entries : List Entry)
    (memberList : List MemberRef) (targetAbstract : Bool) (s0 : Store)
    (hA : (w A).instanceMethods = [])
    (hB : (w A).superB = some B) :
    ∀ (i : Nat) (a : FnId), i < ((w B).instanceMethods).length →
      (analyzeOverloadingSteps canOv sameSig w ps fuel A entries memberList
        targetAbstract s0).table[i]? = some a →
      ((w B).instanceMethods)[i]? = some a ∨
      ∃ b, ((w B).instanceMethods)[i]? = some b ∧
        Overrides (analyzeOverloadingSteps canOv sameSig w ps fuel A entries
          memberList targetAbstract s0).store a b := by
  have heq : analyzeOverloadingSteps canOv sameSig w ps fuel A entries
      memberList targetAbstract s0 =
    checkForRequiredMethods targetAbstract ((w A).typeClass)
      (addNewMethods ps memberList
        (overrideMembers canOv sameSig ps entries
          (createInterfaceTables w fuel A
            (copyBaseClassMethods w A
              ⟨(w A).instanceMethods, (w A).interfaces, s0, []⟩)))) := rfl
  rw [heq]
  have hsrc : copyBaseSource w A = some B := by
    simp only [copyBaseSource, hB]
  have htab : (createInterfaceTables w fuel A
      (copyBaseClassMethods w A
        ⟨(w A).instanceMethods, (w A).interfaces, s0, []⟩)).table =
      (w B).instanceMethods := by
    rw [createInterfaceTables_eq]
    rw [(citFold_chars w fuel A (interfaceTypesOf w fuel A) _).2.1]
    simp only [copyBaseClassMethods, hsrc, hA, List.nil_append]
  have hev : OvEvolves w
      (createInterfaceTables w fuel A
        (copyBaseClassMethods w A
          ⟨(w A).instanceMethods, (w A).interfaces, s0, []⟩))
      (checkForRequiredMethods targetAbstract ((w A).typeClass)
        (addNewMethods ps memberList
          (overrideMembers canOv sameSig ps entries
            (createInterfaceTables w fuel A
              (copyBaseClassMethods w A
                ⟨(w A).instanceMethods, (w A).interfaces, s0, []⟩))))) :=
    ovEvolves_trans (overrideMembers_ev w canOv sameSig ps entries _)
      (ovEvolves_trans (addNewMethods_ev w ps memberList _)
        (cfr_ev w targetAbstract ((w A).typeClass) _))
  have hfin := hev.2.1
  rw [htab] at hfin
  intro i a hi hia
  exact hfin.2 i a hi hia

theorem c1_amended_witness :
    (c1wWit 0).instanceMethods = [] ∧ (c1wWit 0).superB = some 1 ∧
    (∀ (i : Nat) (a : FnId), i < ((c1wWit 1).instanceMethods).length →
      (analyzeOverloadingSteps (fun _ _ => false) (fun _ _ => false) c1wWit
        c1ps 0 0 [] [] false c1store).table[i]? = some a →
      ((c1wWit 1).instanceMethods)[i]? = some a ∨
      ∃ b, ((c1wWit 1).instanceMethods)[i]? = some b ∧
        Overrides (analyzeOverloadingSteps (fun _ _ => false) (fun _ _ => false)
          c1wWit c1ps 0 0 [] [] false c1store).store a b) :=
  ⟨rfl, rfl,
   c1_amended (fun _ _ => false) (fun _ _ => false) c1wWit c1ps 0 0 1 [] [] false
     c1store rfl rfl⟩
